import Mathlib

/-!
Verification of the chapter acquisition and consolidation pipeline of the
MangaPark downloader: a shallow embedding of `src/logic/merger.py`,
`src/logic/downloader.py` and the pause bookkeeping of
`src/ui/bulk_downloader.py`, together with theorems settling the
specification claims about them.  Chapter-number values (Python floats)
are modelled as exact rationals; machine strings as `String`/`List Char`.
-/

namespace MPD

/- Batteries marks the rational arithmetic operations `[irreducible]`,
which blocks evaluation inside `decide`; restore the default so concrete
runs of the embedded code can be computed in proofs. -/
attribute [local semireducible] Rat.add Rat.mul Rat.sub Rat.inv

/-! ### Backtracking pattern matching

`re.search` with the concrete patterns of `merger.py` is embedded as a
list-of-successes matcher over `List Char`: each matching function returns
the possible (captured, rest) splits in the order Python's backtracking
engine tries them, and `searchFirst` scans start positions left to right
taking the first success, exactly like `re.search`.  All patterns in
`merger.py` are compiled with `re.IGNORECASE`, so literal characters are
compared case-insensitively (pattern literals are stored lower-case). -/

/-- Case-insensitive literal: consume the pattern characters `pat`
(stored lower-case) from the head of `s`; return the rest on success. -/
def dropLitCI : List Char → List Char → Option (List Char)
  | [], s => some s
  | _ :: _, [] => none
  | c :: cs, x :: xs => if x.toLower = c then dropLitCI cs xs else none

/-- Options for `\d+` (greedy): all nonempty digit-run splits of `s`, in
decreasing length. -/
def digitsPlusOpts (s : List Char) : List (List Char × List Char) :=
  let n := (s.takeWhile (·.isDigit)).length
  (List.range n).map fun j => (s.take (n - j), s.drop (n - j))

/-- Options for `\s*` (greedy): whitespace-run splits, longest first,
including the empty match. -/
def spacesStarOpts (s : List Char) : List (List Char × List Char) :=
  let n := (s.takeWhile (·.isWhitespace)).length
  (List.range (n + 1)).map fun j => (s.take (n - j), s.drop (n - j))

/-- Options for `.+` (greedy): any-but-newline splits, longest first. -/
def dotPlusOpts (s : List Char) : List (List Char × List Char) :=
  let n := (s.takeWhile (· ≠ '\n')).length
  (List.range n).map fun j => (s.take (n - j), s.drop (n - j))

/-- Options for `.*` (greedy): like `dotPlusOpts` plus the empty match. -/
def dotStarOpts (s : List Char) : List (List Char × List Char) :=
  let n := (s.takeWhile (· ≠ '\n')).length
  (List.range (n + 1)).map fun j => (s.take (n - j), s.drop (n - j))

/-- `\d{3}`: exactly three digits. -/
def threeDigitsOpts : List Char → List (List Char × List Char)
  | c1 :: c2 :: c3 :: rest =>
    if c1.isDigit && c2.isDigit && c3.isDigit then [([c1, c2, c3], rest)] else []
  | _ => []

/-- A literal character `c0` followed by `\d+` (used for `_\d+` and
`\.\d+`). -/
def charThenDigits (c0 : Char) (s : List Char) : List (List Char × List Char) :=
  match s with
  | c :: rest => if c = c0 then (digitsPlusOpts rest).map fun p => (c0 :: p.1, p.2) else []
  | [] => []

/-- `(?:_\d+)?` (greedy): underscore-and-digits first, then the empty match. -/
def optUnderscoreDigits (s : List Char) : List (List Char × List Char) :=
  charThenDigits '_' s ++ [([], s)]

/-- `(?:\.\d+)?` (greedy). -/
def optDotDigits (s : List Char) : List (List Char × List Char) :=
  charThenDigits '.' s ++ [([], s)]

/-- `\d{3}(?:_\d+)?` — the bound token of `_is_already_merged`, and the
first alternative of the bound group in `_single_re` and `_range_re`. -/
def boundTokenOpts (s : List Char) : List (List Char × List Char) :=
  (threeDigitsOpts s).flatMap fun p =>
    (optUnderscoreDigits p.2).map fun q => (p.1 ++ q.1, q.2)

/-- `\d+(?:\.\d+)?` — the second alternative of the bound group. -/
def plainNumberOpts (s : List Char) : List (List Char × List Char) :=
  (digitsPlusOpts s).flatMap fun p =>
    (optDotDigits p.2).map fun q => (p.1 ++ q.1, q.2)

/-- The capture group `(\d{3}(?:_\d+)?|\d+(?:\.\d+)?)` of `_single_re`
and `_range_re` (ordered alternation, first alternative preferred). -/
def groupTokenOpts (s : List Char) : List (List Char × List Char) :=
  boundTokenOpts s ++ plainNumberOpts s

def chapterLit : List Char := ['c', 'h', 'a', 'p', 't', 'e', 'r', '_']

def pdfLit : List Char := ['.', 'p', 'd', 'f']

def titleSepLit : List Char := [' ', '-', ' ']

/-- The literal `-` of a pattern followed by a continuation matcher. -/
def dashThen {α : Type} (f : List Char → List α) : List Char → List α
  | [] => []
  | c :: r => if c = '-' then f r else []

/-- `_single_re` at one start position: `Chapter_` then the bound group;
yields the captured-group options. -/
def singleAt (s : List Char) : List (List Char × List Char) :=
  match dropLitCI chapterLit s with
  | none => []
  | some r => groupTokenOpts r

/-- `_range_re` at one start position: `Chapter_` group `-` group. -/
def rangeAt (s : List Char) : List ((List Char × List Char) × List Char) :=
  match dropLitCI chapterLit s with
  | none => []
  | some r =>
    (groupTokenOpts r).flatMap fun p =>
      dashThen (fun r2 => (groupTokenOpts r2).map fun q => ((p.1, q.1), q.2)) p.2

/-- `re.search`: scan start positions left to right, take the first
position with a match (and there the engine's first option). -/
def searchFirst {α : Type} (f : List Char → List (α × List Char)) : List Char → Option α
  | [] => ((f []).head?).map (·.1)
  | x :: xs =>
    match ((f (x :: xs)).head?).map (·.1) with
    | some a => some a
    | none => searchFirst f xs

/-- `Chapter_\d{3}(?:_\d+)?-\d{3}(?:_\d+)?\s*-\s*.+\.pdf$` at one start
position (the pattern of `_is_already_merged`, merger.py line 14). -/
def mergedAt (s : List Char) : List (Unit × List Char) :=
  match dropLitCI chapterLit s with
  | none => []
  | some r =>
    (boundTokenOpts r).flatMap fun p =>
      dashThen (fun r2 =>
        (boundTokenOpts r2).flatMap fun q =>
          (spacesStarOpts q.2).flatMap fun u =>
            dashThen (fun r4 =>
              (spacesStarOpts r4).flatMap fun v =>
                (dotPlusOpts v.2).flatMap fun w =>
                  match dropLitCI pdfLit w.2 with
                  | some rest => if rest = [] ∨ rest = ['\n'] then [((), rest)] else []
                  | none => []) u.2) p.2

/-- `_is_already_merged` (merger.py lines 12-14). -/
def isAlreadyMerged (filename : String) : Bool :=
  (searchFirst mergedAt filename.toList).isSome

/-! ### Token values and bound formatting -/

/-- Decimal value of a digit character. -/
def charDigitVal (c : Char) : ℕ := c.toNat - 48

def natOfChars (s : List Char) : ℕ := s.foldl (fun acc c => 10 * acc + charDigitVal c) 0

/-- Model of Python `float()` restricted to strings made of digits and
dots (the only shapes `_token_to_float` ever feeds it); `none` models the
`ValueError` branch. -/
def parseFloatChars (s : List Char) : Option ℚ :=
  let i := s.takeWhile (· ≠ '.')
  match s.drop i.length with
  | [] => if i ≠ [] ∧ i.all (·.isDigit) then some (natOfChars i : ℚ) else none
  | _ :: f =>
    if (i ≠ [] ∨ f ≠ []) ∧ i.all (·.isDigit) ∧ f.all (·.isDigit) then
      some ((natOfChars i : ℚ) + (natOfChars f : ℚ) / 10 ^ f.length)
    else none

/-- `_token_to_float` (merger.py lines 21-29): underscores become dots,
then `float()`, falling back to the first embedded number
`(\d+(?:\.\d+)?)`, else 0. -/
def tokenToFloat (tok : List Char) : ℚ :=
  let t := tok.map fun ch => if ch = '_' then '.' else ch
  match parseFloatChars t with
  | some v => v
  | none =>
    match searchFirst plainNumberOpts t with
    | some g => (parseFloatChars g).getD 0
    | none => 0

/-- `_parse_bounds_from_name` (merger.py lines 32-42). -/
def parseBoundsFromName (name : String) : Option (ℚ × ℚ) :=
  match searchFirst rangeAt name.toList with
  | some g => some (tokenToFloat g.1, tokenToFloat g.2)
  | none =>
    match searchFirst singleAt name.toList with
    | some g => some (tokenToFloat g, tokenToFloat g)
    | none => none

/-! Computable rational primitives (kernel-reducible stand-ins for
`min`, `max`, `abs`, `round`, `floor` and `fract` on `ℚ`, with bridging
lemmas to the Mathlib operations). -/

def qfloor (q : ℚ) : ℤ := q.num / q.den

def qround (q : ℚ) : ℤ := qfloor (q + 1 / 2)

def qabs (q : ℚ) : ℚ := if q < 0 then -q else q

def qfract (q : ℚ) : ℚ := q - qfloor q

def qmin (a b : ℚ) : ℚ := if a ≤ b then a else b

def qmax (a b : ℚ) : ℚ := if a ≤ b then b else a

lemma qfloor_eq (q : ℚ) : qfloor q = ⌊q⌋ := Rat.floor_def.symm

lemma qround_eq (q : ℚ) : qround q = round q := by
  rw [round_eq, qround, qfloor_eq]

lemma qabs_eq (q : ℚ) : qabs q = |q| := by
  unfold qabs
  by_cases h : q < 0
  · rw [if_pos h, abs_of_neg h]
  · rw [if_neg h, abs_of_nonneg (not_lt.mp h)]

lemma qfract_eq (q : ℚ) : qfract q = Int.fract q := by
  rw [qfract, qfloor_eq, Int.fract]

lemma qmin_eq (a b : ℚ) : qmin a b = min a b := (min_def a b).symm

lemma qmax_eq (a b : ℚ) : qmax a b = max a b := (max_def a b).symm

/-- Decimal digit characters of a positive integer, most significant
first; `fuel` bounds the number of digits (30 is far beyond any chapter
number). -/
def natCharsAux : ℕ → ℕ → List Char
  | 0, _ => []
  | fuel + 1, n => if n = 0 then [] else natCharsAux fuel (n / 10) ++ [Nat.digitChar (n % 10)]

/-- Decimal digit characters of `n` (Python `str` on a non-negative
integer). -/
def natChars (n : ℕ) : List Char :=
  if n = 0 then ['0'] else natCharsAux 30 n

/-- `f"{k:03d}"`: zero-pad to width three (sign included in the width for
negatives, as in Python). -/
def pad3Int (k : ℤ) : List Char :=
  if k < 0 then '-' :: List.replicate (2 - (natChars k.natAbs).length) '0' ++ natChars k.natAbs
  else List.replicate (3 - (natChars k.toNat).length) '0' ++ natChars k.toNat

/-- Python `int()` on a rational: truncation toward zero. -/
def ratTrunc (q : ℚ) : ℤ := if 0 ≤ q then qfloor q else -qfloor (-q)

/-- Digits after the decimal point in Python's `str` of a float whose
value is a terminating decimal (the only values the merger produces);
`fuel` bounds the expansion far beyond `str`'s 17 significant digits. -/
def fracDigitsAux : ℕ → ℚ → List Char
  | 0, _ => []
  | fuel + 1, f =>
    if f = 0 then [] else Nat.digitChar (qfloor (f * 10)).toNat :: fracDigitsAux fuel (qfract (f * 10))

def fracDigits (q : ℚ) : List Char := fracDigitsAux 30 (qfract (qabs q))

/-- `_format_bound` (merger.py lines 45-51): integers (to within `1e-9`)
render as `f"{int(round(val)):03d}"`, other values as
`f"{int(val):03d}_{frac}"` with `frac` the digits of `str(val)` after the
point. -/
def formatBound (val : ℚ) : List Char :=
  if qabs (val - (qround val : ℤ)) < 1 / 1000000000 then pad3Int (qround val)
  else pad3Int (ratTrunc val) ++ '_' :: fracDigits val

/-! ### Folder scan, manifest and merge (merger.py lines 54-204) -/

/-- Python `.lower()`. -/
def lowerStr (s : String) : String := String.mk (s.toList.map Char.toLower)

def endsWithPdf (name : String) : Bool :=
  List.isSuffixOf ".pdf".toList (lowerStr name).toList

/-- Stable insertion into a list sorted by first component (Python's
stable `list.sort(key=...)`, merger.py line 66). -/
def insertByStart (x : ℚ × String) : List (ℚ × String) → List (ℚ × String)
  | [] => [x]
  | y :: ys => if x.1 ≤ y.1 then x :: y :: ys else y :: insertByStart x ys

def sortByStart (l : List (ℚ × String)) : List (ℚ × String) := l.foldr insertByStart []

/-- `_find_and_sort_chapter_pdfs` (merger.py lines 54-67) over a
directory listing. -/
def findAndSortChapterPdfs (listing : List String) (ignore_merged : Bool) :
    List (ℚ × String) :=
  sortByStart <| listing.filterMap fun filename =>
    if endsWithPdf filename = false then none
    else if ignore_merged && isAlreadyMerged filename then none
    else (parseBoundsFromName filename).map fun b => (b.1, filename)

structure ChapterEntry where
  pdf_path : Option String
deriving DecidableEq

/-- The file-system/manifest environment `_load_manifest_list` reads:
the content of `latest_manifest.txt` if it exists, the parsed `chapters`
array of each readable manifest JSON, and the `os.path.isfile` test. -/
structure MergeEnv where
  pointerContent : Option String
  manifestChapters : String → Option (List ChapterEntry)
  isFile : String → Bool

/-- `_load_manifest_list` (merger.py lines 70-91): returns the manifest's
existing pdf paths, or `none` plus status messages when the pointer file
is missing, the manifest is missing or unreadable, or no listed pdf
exists. -/
def loadManifestList (env : MergeEnv) : Option (List String) × List String :=
  match env.pointerContent with
  | none => (none, [])
  | some content =>
    let manifestPath := content.trim
    if manifestPath = "" ∨ env.isFile manifestPath = false then
      (none, ["warn: manifest pointer target missing"])
    else
      match env.manifestChapters manifestPath with
      | none => (none, ["warn: could not read manifest"])
      | some chapters =>
        let pdfs := chapters.filterMap fun c =>
          match c.pdf_path with
          | some p => if p ≠ "" ∧ env.isFile p = true then some p else none
          | none => none
        if pdfs = [] then (none, ["info: manifest lists no existing pdfs"])
        else (some pdfs, [])

/-- The capture of `" - (.*)\.pdf"` at one start position (merger.py
line 157). -/
def titleAt (s : List Char) : List (List Char × List Char) :=
  match dropLitCI titleSepLit s with
  | none => []
  | some r =>
    (dotStarOpts r).flatMap fun p =>
      match dropLitCI pdfLit p.2 with
      | some rest => [(p.1, rest)]
      | none => []

/-- Display title derived from the first chunk member (merger.py lines
156-158). -/
def titleOf (first_name : String) : String :=
  match searchFirst titleAt first_name.toList with
  | some g => String.mk g
  | none => "Webtoon"

/-- Output name of a merged bundle (merger.py line 187). -/
def outName (bmin bmax : ℚ) (title : String) : String :=
  String.mk ("Chapter_".toList ++ formatBound bmin ++ '-' :: formatBound bmax
    ++ " - ".toList ++ title.toList ++ ".pdf".toList)

def listMinQ : List ℚ → ℚ
  | [] => 0
  | x :: xs => xs.foldl qmin x

def listMaxQ : List ℚ → ℚ
  | [] => 0
  | x :: xs => xs.foldl qmax x

/-- Observable effects of `merge_pdfs`: names written into the folder,
originals moved into `_originals` (never deleted), and the status stream
(texts abbreviated; only their presence matters to the claims). -/
structure MergeResult where
  written : List String
  moved : List String
  statuses : List String
deriving DecidableEq

/-- `for i in range(0, len(paths), N): chunk = paths[i:i+N]` — consecutive
chunks of size `n`; the `fuel` argument (instantiated with the list
length) only drives the recursion. -/
def chunkListAux {α : Type} (n : ℕ) : ℕ → List α → List (List α)
  | 0, _ => []
  | _, [] => []
  | fuel + 1, x :: xs =>
    if n = 0 then [] else (x :: xs).take n :: chunkListAux n fuel ((x :: xs).drop n)

def chunkList {α : Type} (n : ℕ) (l : List α) : List (List α) :=
  chunkListAux n l.length l

/-- Effect of one chunk of the merge loop (merger.py lines 148-199):
the names written, the originals moved, and the statuses emitted.  Every
member's bounds are parsed, unparsable members are skipped, a single
surviving member is kept untouched, otherwise the spanning output is
written and the consumed originals are moved. -/
def chunkDelta (chunk : List String) : List String × List String × List String :=
  match chunk with
  | [] => ([], [], [])
  | first :: _ =>
    let manga_title := titleOf first
    let parsed := chunk.filterMap fun pdf => (parseBoundsFromName pdf).map fun b => (b, pdf)
    let valid := parsed.map (·.2)
    match valid with
    | [] => ([], [], [])
    | [single] => ([], [], ["keep single: " ++ single])
    | _ =>
      let mins := parsed.map fun p => qmin p.1.1 p.1.2
      let maxs := parsed.map fun p => qmax p.1.1 p.1.2
      let out := outName (listMinQ mins) (listMaxQ maxs) manga_title
      ([out], valid, ["write: " ++ out])

def mergeChunk (acc : MergeResult) (chunk : List String) : MergeResult :=
  let d := chunkDelta chunk
  ⟨acc.written ++ d.1, acc.moved ++ d.2.1, acc.statuses ++ d.2.2⟩

def runChunks (paths : List String) (chapters_per_pdf : ℕ) (sts : List String) : MergeResult :=
  if chapters_per_pdf = 0 then
    -- `range(0, len, 0)` raises ValueError, caught by the outer handler
    ⟨[], [], sts ++ ["error: unexpected"]⟩
  else
    let r := (chunkList chapters_per_pdf paths).foldl mergeChunk ⟨[], [], sts⟩
    { r with statuses := r.statuses ++ ["done"] }

/-- The explicit-selection filter (merger.py lines 118-123). -/
def selectedFilter (ignore_merged : Bool) (l : List String) : List String :=
  l.filter fun path =>
    (!(ignore_merged && isAlreadyMerged path)) && endsWithPdf path
      && (parseBoundsFromName path).isSome

/-- The folder-scan source mode (merger.py lines 135-141). -/
def scanThen (listing : List String) (chapters_per_pdf : ℕ) (ignore_merged : Bool)
    (sts : List String) : MergeResult :=
  let found := findAndSortChapterPdfs listing ignore_merged
  if found = [] then ⟨[], [], sts ++ ["info: no matching chapter pdfs"]⟩
  else runChunks (found.map (·.2)) chapters_per_pdf (sts ++ ["found"])

/-- `merge_pdfs` (merger.py lines 94-204) as a function from the folder
listing and manifest environment to its observable effects.  An empty
`selected_files` list is falsy in Python, hence treated like `None`. -/
def mergePdfs (folderIsDir : Bool) (listing : List String) (chapters_per_pdf : ℕ)
    (selected_files : Option (List String)) (use_session_manifest : Bool)
    (env : MergeEnv) (ignore_merged : Bool) : MergeResult :=
  if folderIsDir = false then ⟨[], [], ["error: folder not found"]⟩
  else
    match selected_files with
    | some (f :: fs) =>
      let picked := selectedFilter ignore_merged (f :: fs)
      if picked = [] then scanThen listing chapters_per_pdf ignore_merged ["selected: 0"]
      else runChunks picked chapters_per_pdf ["selected"]
    | _ =>
      if use_session_manifest then
        match loadManifestList env with
        | (some pdfs, sts) => runChunks pdfs chapters_per_pdf (sts ++ ["manifest"])
        | (none, sts) => ⟨[], [], sts ++ ["info: no new chapters in this session"]⟩
      else scanThen listing chapters_per_pdf ignore_merged []

/-! ### Downloader: image-link extraction (downloader.py lines 284-298) -/

/-- Python `str.strip()`: drop leading and trailing whitespace. -/
def trimChars (l : List Char) : List Char :=
  ((l.dropWhile (·.isWhitespace)).reverse.dropWhile (·.isWhitespace)).reverse

/-- `clean_image_url` (downloader.py lines 103-106):
`url.split("?")[0].strip()`. -/
def cleanImageUrl (url : String) : String :=
  if url = "" then url else String.mk (trimChars (url.toList.takeWhile (· ≠ '?')))

/-- One `<img>` element, restricted to the attributes the extractor
reads. -/
structure ImgEl where
  src : Option String
  dataSrc : Option String
  dataLazySrc : Option String
  dataOriginal : Option String
  srcset : Option String

/-- Python truthiness of an attribute value: absent or empty is falsy. -/
def attrOrNone (o : Option String) : Option String :=
  match o with
  | some s => if s = "" then none else some s
  | none => none

/-- The attribute fallback chain `src`, `data-src`, `data-lazy-src`,
`data-original`, `srcset` (downloader.py lines 285-292). -/
def resolveSrc (img : ImgEl) : Option String :=
  match attrOrNone img.src with
  | some s => some s
  | none =>
    match attrOrNone img.dataSrc with
    | some s => some s
    | none =>
      match attrOrNone img.dataLazySrc with
      | some s => some s
      | none =>
        match attrOrNone img.dataOriginal with
        | some s => some s
        | none => attrOrNone img.srcset

def rasterExts : List String := [".jpg", ".jpeg", ".png", ".webp", ".gif"]

/-- Python `pat in s` on strings: `pat` occurs contiguously in `s`. -/
def hasInfix (pat : List Char) : List Char → Bool
  | [] => pat.isEmpty
  | x :: xs => pat.isPrefixOf (x :: xs) || hasInfix pat xs

/-- Acceptance test of downloader.py lines 295-297: absolute (lowercased
url starts with `http`), not already collected, and raster extension or
`/media/` path segment. -/
def qualifiesUrl (s : String) (links : List String) : Bool :=
  List.isPrefixOf "http".toList (lowerStr s).toList && !links.contains s &&
    (rasterExts.any (fun ext => List.isSuffixOf ext.toList (lowerStr s).toList)
      || hasInfix "/media/".toList s.toList)

def extractLinksAux : List ImgEl → List String → List String
  | [], links => links
  | img :: rest, links =>
    match resolveSrc img with
    | none => extractLinksAux rest links
    | some s0 =>
      let s := cleanImageUrl s0
      if qualifiesUrl s links then extractLinksAux rest (links ++ [s])
      else extractLinksAux rest links

/-- The image-link extraction loop (downloader.py lines 284-298). -/
def extractLinks (imgs : List ImgEl) : List String := extractLinksAux imgs []

/-- `(resolveSrc ·).map cleanImageUrl` over the page's images: the
query-stripped candidate stream the extractor selects from, in page
order. -/
def cleanedStream (imgs : List ImgEl) : List String :=
  imgs.filterMap fun img => (resolveSrc img).map cleanImageUrl

/-! ### Downloader: adaptive pagination (downloader.py lines 451-464) -/

/-- The dynamic images-per-page computation, with
`SAFE_PAGE_HEIGHT_LIMIT = 20000` (Python `//` on naturals is `Nat.div`). -/
def dynamicImagesPerPage (max_height : ℕ) : ℕ :=
  if 0 < max_height then
    if 20000 < max_height then 1
    else if 10000 < max_height then max 1 (min 4 (20000 / max_height))
    else if 5000 < max_height then max 1 (min 8 (20000 / max_height))
    else max 1 (min 10 (20000 / max_height))
  else 10

/-! ### Downloader: per-chapter progress trace (downloader.py 300-556) -/

/-- Per-image progress percent (downloader.py lines 417-419):
`min(90, max(10, 10 + int(80 * (i / total))))`, the float truncation
modelled as exact floor division. -/
def imagePct (i total : ℕ) : ℕ := min 90 (max 10 (10 + 80 * i / total))

/-- The values handed to the per-chapter progress callback across one run
of `_download_single_chapter_internal`, as a function of the per-image
success flags: `[]` models the no-images-found failure path (a single
`progress_update(0)`); otherwise 10 at start, one mapped percent per
image, then 92 and 100 on success of the chapter, or 0 when every image
failed (downloader.py lines 304-308, 317-321, 416-423, 431-435, 471-475,
521-525). -/
def chapterProgressTrace (results : List Bool) : List ℕ :=
  match results with
  | [] => [0]
  | _ :: _ =>
    10 :: ((List.range results.length).map fun j => imagePct (j + 1) results.length)
      ++ (if results.any id then [92, 100] else [0])

/-! ### Downloader: chapter walk (downloader.py lines 599-918) -/

def MAX_CHAPTERS_LIMIT : ℕ := 200
def MAX_CHAPTER_FAILURES : ℕ := 5

/-- Outcome of one chapter attempt: whether
`_download_single_chapter_internal` succeeded, and what
`find_next_chapter_url` would return if consulted. -/
structure Attempt where
  ok : Bool
  next : Option String
deriving DecidableEq

structure WalkState where
  downloaded : ℕ
  failed : ℕ
  nav : ℕ
deriving DecidableEq

inductive EndReason
  | target | safetyCap | tooManyFailures | noNext | exhausted
deriving DecidableEq

/-- One iteration body of the chapter walk (downloader.py lines 727-844):
the new state and whether the loop continues.  `nav` counts
`find_next_chapter_url` invocations; after a failure the next link is
looked up only while `failed < MAX_CHAPTER_FAILURES`. -/
def iterStep (s : WalkState) (a : Attempt) : WalkState × Bool :=
  if a.ok then
    let s1 : WalkState := ⟨s.downloaded + 1, 0, s.nav + 1⟩
    match a.next with
    | some _ => (s1, true)
    | none => (s1, false)
  else
    let s1 : WalkState := ⟨s.downloaded, s.failed + 1, s.nav⟩
    if s1.failed < MAX_CHAPTER_FAILURES then
      match a.next with
      | some _ => (⟨s1.downloaded, s1.failed, s1.nav + 1⟩, true)
      | none => (⟨s1.downloaded, s1.failed, s1.nav + 1⟩, false)
    else (s1, true)

/-- The walk loop of `download_multiple_chapters` (downloader.py lines
707-844) over an abstract finite sequence of attempt outcomes; the
pre-attempt guards (requested count, safety cap, failure threshold) are
checked before every attempt exactly as in the source. -/
def walkLoop (auto_detect : Bool) (max_chapters : ℕ) :
    List Attempt → WalkState → WalkState × EndReason
  | attempts, s =>
    if auto_detect = false ∧ max_chapters ≤ s.downloaded then (s, .target)
    else if MAX_CHAPTERS_LIMIT ≤ s.downloaded then (s, .safetyCap)
    else if MAX_CHAPTER_FAILURES ≤ s.failed then (s, .tooManyFailures)
    else
      match attempts with
      | [] => (s, .exhausted)
      | a :: rest =>
        let r := iterStep s a
        if r.2 then walkLoop auto_detect max_chapters rest r.1
        else (r.1, .noNext)

/-! ### Pause accounting (bulk_downloader.py 1027-1068, downloader.py
852-857) -/

structure PauseState where
  uiPaused : Bool
  isPaused : Bool
  startTime : ℚ
  pauseStartTime : ℚ
  totalPausedDuration : ℚ
deriving DecidableEq

/-- Controller state right after `reset()` and `start_time = time.time()`
at session start `t0` (downloader.py lines 54-66, 611-612). -/
def initialPauseState (t0 : ℚ) : PauseState := ⟨false, false, t0, 0, 0⟩

/-- `_on_pause_resume` (bulk_downloader.py lines 1027-1068) at wall-clock
`now`: toggling into pause records the pause start (if none is pending);
toggling out adds the elapsed pause interval to the cumulative counter
(UI-only widget bookkeeping omitted). -/
def onPauseResume (st : PauseState) (now : ℚ) : PauseState :=
  if st.uiPaused = false then
    { st with
      uiPaused := true
      isPaused := true
      pauseStartTime := if st.pauseStartTime ≤ 0 then now else st.pauseStartTime }
  else
    { st with
      uiPaused := false
      isPaused := false
      pauseStartTime := 0
      totalPausedDuration :=
        if 0 < st.pauseStartTime then st.totalPausedDuration + (now - st.pauseStartTime)
        else st.totalPausedDuration }

/-- Elapsed running time (downloader.py lines 852-857): wall clock since
session start minus the cumulative paused duration. -/
def elapsedRunningTime (st : PauseState) (now : ℚ) : ℚ :=
  (now - st.startTime) - st.totalPausedDuration

/-! ## Theorems -/

/-! ### C4: adaptive pagination -/

lemma dyn_le_2000 (h : ℕ) (h0 : 0 < h) (h2 : h ≤ 2000) : dynamicImagesPerPage h = 10 := by
  unfold dynamicImagesPerPage
  rw [if_pos h0, if_neg (by omega), if_neg (by omega), if_neg (by omega)]
  have : 10 ≤ 20000 / h := (Nat.le_div_iff_mul_le h0).mpr (by omega)
  omega

lemma dyn_mid (h : ℕ) (h1 : 2000 < h) (h2 : h ≤ 10000) :
    dynamicImagesPerPage h = 20000 / h := by
  unfold dynamicImagesPerPage
  rw [if_pos (by omega), if_neg (by omega), if_neg (by omega)]
  by_cases h5 : 5000 < h
  · rw [if_pos h5]
    have d2 : 2 ≤ 20000 / h := (Nat.le_div_iff_mul_le (by omega)).mpr (by omega)
    have d4 : 20000 / h < 4 := (Nat.div_lt_iff_lt_mul (by omega)).mpr (by omega)
    omega
  · rw [if_neg h5]
    have d4 : 4 ≤ 20000 / h := (Nat.le_div_iff_mul_le (by omega)).mpr (by omega)
    have d10 : 20000 / h < 10 := (Nat.div_lt_iff_lt_mul (by omega)).mpr (by omega)
    omega

lemma dyn_high (h : ℕ) (h1 : 10000 < h) : dynamicImagesPerPage h = 1 := by
  unfold dynamicImagesPerPage
  rw [if_pos (by omega)]
  by_cases h20 : 20000 < h
  · rw [if_pos h20]
  · rw [if_neg h20, if_pos h1]
    have d1 : 1 ≤ 20000 / h := (Nat.le_div_iff_mul_le (by omega)).mpr (by omega)
    have d2 : 20000 / h < 2 := (Nat.div_lt_iff_lt_mul (by omega)).mpr (by omega)
    omega

lemma dyn_bounds (h : ℕ) : 1 ≤ dynamicImagesPerPage h ∧ dynamicImagesPerPage h ≤ 10 := by
  unfold dynamicImagesPerPage
  split_ifs <;> omega

/-- C4: the dynamically computed images-per-page value is non-increasing
in the chapter's maximum image height, and always lies in `[1, 10]`. -/
theorem images_per_page_antitone_and_bounded :
    (∀ h1 h2 : ℕ, h1 ≤ h2 → dynamicImagesPerPage h2 ≤ dynamicImagesPerPage h1) ∧
    (∀ h : ℕ, 1 ≤ dynamicImagesPerPage h ∧ dynamicImagesPerPage h ≤ 10) := by
  refine ⟨fun h1 h2 hle => ?_, dyn_bounds⟩
  by_cases ha : h1 ≤ 2000
  · rcases Nat.eq_zero_or_pos h1 with h0 | h0
    · subst h0
      have : dynamicImagesPerPage 0 = 10 := by unfold dynamicImagesPerPage; simp
      rw [this]
      exact (dyn_bounds h2).2
    · rw [dyn_le_2000 h1 h0 ha]
      exact (dyn_bounds h2).2
  · by_cases hb : h1 ≤ 10000
    · rw [dyn_mid h1 (by omega) hb]
      by_cases hc : h2 ≤ 10000
      · rw [dyn_mid h2 (by omega) hc]
        exact Nat.div_le_div_left hle (by omega)
      · rw [dyn_high h2 (by omega)]
        exact (Nat.le_div_iff_mul_le (by omega)).mpr (by omega)
    · rw [dyn_high h1 (by omega), dyn_high h2 (by omega)]

/-- Witness for C4 at heights 3000 ≤ 7000. -/
theorem images_per_page_antitone_witness :
    dynamicImagesPerPage 7000 ≤ dynamicImagesPerPage 3000 :=
  images_per_page_antitone_and_bounded.1 3000 7000 (by norm_num)

/-! ### C6: failure threshold in the chapter walk -/

/-- C6: with failure threshold 5 (`MAX_CHAPTER_FAILURES`), five
consecutive failed attempts end the walk with `failed = 5` having looked
up a next chapter only four times (no navigation after the fifth
failure), and any successful attempt resets the consecutive-failure
counter to zero. -/
theorem walk_failure_threshold_and_reset :
    walkLoop false 10 (List.replicate 5 ⟨false, some "u"⟩) ⟨0, 0, 0⟩ =
      (⟨0, 5, 4⟩, EndReason.tooManyFailures) ∧
    ∀ (s : WalkState) (nxt : Option String), (iterStep s ⟨true, nxt⟩).1.failed = 0 := by
  constructor
  · decide
  · intro s nxt
    cases nxt <;> simp [iterStep]

/-- Witness for C6's reset clause at a concrete state. -/
theorem walk_failure_reset_witness :
    (iterStep ⟨3, 4, 7⟩ ⟨true, none⟩).1.failed = 0 :=
  walk_failure_threshold_and_reset.2 ⟨3, 4, 7⟩ none

/-! ### C8: pause accounting -/

/-- C8: a completed pause is recorded on entry, accumulated on exit, and
subtracted from every elapsed-time computation: after pausing at `t1` and
resuming at `t2` in a session started at `t0`, the elapsed time reported
at `t3` is `(t3 - t0) - (t2 - t1)`. -/
theorem pause_excluded_from_elapsed (t0 t1 t2 t3 : ℚ) (h : 0 < t1) :
    (onPauseResume (initialPauseState t0) t1).isPaused = true ∧
    (onPauseResume (initialPauseState t0) t1).pauseStartTime = t1 ∧
    (onPauseResume (onPauseResume (initialPauseState t0) t1) t2).isPaused = false ∧
    (onPauseResume (onPauseResume (initialPauseState t0) t1) t2).totalPausedDuration
      = t2 - t1 ∧
    elapsedRunningTime (onPauseResume (onPauseResume (initialPauseState t0) t1) t2) t3
      = (t3 - t0) - (t2 - t1) := by
  simp [onPauseResume, initialPauseState, elapsedRunningTime, h]

/-- Witness for C8: pause from 110 to 130 in a session started at 100,
read at 200. -/
theorem pause_excluded_witness :
    elapsedRunningTime (onPauseResume (onPauseResume (initialPauseState 100) 110) 130) 200
      = (200 - 100) - (130 - 110) :=
  (pause_excluded_from_elapsed 100 110 130 200 (by norm_num)).2.2.2.2

/-! ### C2: folder-scan merge scenario -/

/-- C2: scanning a folder holding exactly `Chapter_001 - T.pdf`,
`Chapter_002 - T.pdf`, `Chapter_003 - T.pdf` with bundle size 2 writes
one merged output `Chapter_001-002 - T.pdf`, moves the two consumed
originals into `_originals` (the model's `moved` list — nothing is
deleted), and leaves `Chapter_003 - T.pdf` untouched as a single-member
chunk. -/
theorem merge_folder_scan_scenario :
    (mergePdfs true ["Chapter_001 - T.pdf", "Chapter_002 - T.pdf", "Chapter_003 - T.pdf"]
        2 none false ⟨none, fun _ => none, fun _ => false⟩ true).written =
      ["Chapter_001-002 - T.pdf"] ∧
    (mergePdfs true ["Chapter_001 - T.pdf", "Chapter_002 - T.pdf", "Chapter_003 - T.pdf"]
        2 none false ⟨none, fun _ => none, fun _ => false⟩ true).moved =
      ["Chapter_001 - T.pdf", "Chapter_002 - T.pdf"] ∧
    "keep single: Chapter_003 - T.pdf" ∈
      (mergePdfs true ["Chapter_001 - T.pdf", "Chapter_002 - T.pdf", "Chapter_003 - T.pdf"]
        2 none false ⟨none, fun _ => none, fun _ => false⟩ true).statuses := by
  refine ⟨by decide, by decide, by decide⟩

/-! ### C1: format/parse round-trip -/

/-- C1 counterexample: at the non-negative integer 1000 the round-trip
fails — `_format_bound 1000 = "1000"`, but the bound group's first
alternative `\d{3}` matches only `100`, so parsing
`Chapter_ + _format_bound(1000)` yields `(100, 100)`, not `(1000, 1000)`. -/
theorem roundtrip_fails_at_1000 :
    String.mk (formatBound 1000) = "1000" ∧
    parseBoundsFromName (String.mk ("Chapter_".toList ++ formatBound 1000)) =
      some (100, 100) ∧
    ((100 : ℚ), (100 : ℚ)) ≠ ((1000 : ℚ), (1000 : ℚ)) := by
  refine ⟨by decide, by decide, by decide⟩

/-! ### C5: per-chapter progress trace -/

lemma imagePct_bounds (i total : ℕ) : 10 ≤ imagePct i total ∧ imagePct i total ≤ 90 := by
  unfold imagePct
  omega

lemma imagePct_mono (i j total : ℕ) (h : i ≤ j) : imagePct i total ≤ imagePct j total := by
  unfold imagePct
  have hd : 80 * i / total ≤ 80 * j / total :=
    Nat.div_le_div_right (Nat.mul_le_mul_left 80 h)
  omega

lemma chain_pcts (n : ℕ) :
    List.Chain' (· ≤ ·) ((List.range n).map fun j => imagePct (j + 1) n) := by
  rw [List.chain'_map]
  cases n with
  | zero => simp
  | succ m =>
    rw [List.chain'_range_succ]
    intro j _
    exact imagePct_mono (j + 1) (j + 1 + 1) (m + 1) (by omega)

/-- C5 counterexample: a chapter whose single image fails produces the
progress sequence `[10, 90, 0]` — the trailing failure reset to 0 breaks
monotonicity over a lifecycle that ends in failure. -/
theorem chapter_progress_monotonicity_counterexample :
    chapterProgressTrace [false] = [10, 90, 0] ∧
    ¬ List.Chain' (· ≤ ·) (chapterProgressTrace [false]) := by
  refine ⟨by decide, ?_⟩
  intro hc
  rw [show chapterProgressTrace [false] = [10, 90, 0] from by decide] at hc
  simp [List.chain'_cons] at hc

/-- C5 amended: every reported value is an integer in `[0, 100]` and the
per-image values lie in the 10-90 window; the sequence is monotonically
non-decreasing whenever the chapter succeeds (at least one image
survives), while a failed chapter ends with a progress reset to 0 — the
only decreasing step. -/
theorem chapter_progress_amended :
    (∀ rs : List Bool, ∀ v ∈ chapterProgressTrace rs, v ≤ 100) ∧
    (∀ rs : List Bool, rs.any id = true → List.Chain' (· ≤ ·) (chapterProgressTrace rs)) ∧
    (∀ i total : ℕ, 10 ≤ imagePct i total ∧ imagePct i total ≤ 90) := by
  refine ⟨?_, ?_, imagePct_bounds⟩
  · intro rs v hv
    cases rs with
    | nil =>
      simp [chapterProgressTrace] at hv
      omega
    | cons a as =>
      simp only [chapterProgressTrace, List.mem_cons, List.mem_append, List.mem_map,
        List.mem_range] at hv
      rcases hv with (h10 | ⟨j, _, hj⟩) | hrest
      · omega
      · have := (imagePct_bounds (j + 1) (a :: as).length).2
        omega
      · split at hrest
        · simp at hrest
          rcases hrest with rfl | rfl <;> norm_num
        · simp at hrest
          subst hrest
          norm_num
  · intro rs h
    cases rs with
    | nil => simp at h
    | cons a as =>
      have htr : chapterProgressTrace (a :: as) =
          10 :: (((List.range (a :: as).length).map fun j => imagePct (j + 1) (a :: as).length)
            ++ [92, 100]) := by
        simp [chapterProgressTrace, h]
      rw [htr, List.chain'_cons']
      constructor
      · intro y hy
        have hmem := List.mem_of_mem_head? hy
        simp only [List.mem_append, List.mem_map, List.mem_range] at hmem
        rcases hmem with ⟨j, _, rfl⟩ | hm
        · exact (imagePct_bounds _ _).1
        · simp at hm
          omega
      · refine List.Chain'.append (chain_pcts _) (by simp) ?_
        intro x hx y hy
        obtain ⟨hne, hxe⟩ := List.mem_getLast?_eq_getLast hx
        have hxm : x ∈ (List.range (a :: as).length).map
            fun j => imagePct (j + 1) (a :: as).length := by
          rw [hxe]
          exact List.getLast_mem hne
        simp only [List.mem_map, List.mem_range] at hxm
        obtain ⟨j, _, hje⟩ := hxm
        have hb := (imagePct_bounds (j + 1) (a :: as).length).2
        simp only [List.head?_cons, Option.mem_def, Option.some.injEq] at hy
        omega

/-- Witness for C5's amended theorem at the single-success chapter. -/
theorem chapter_progress_amended_witness :
    List.Chain' (· ≤ ·) (chapterProgressTrace [true]) ∧ (10 : ℕ) ≤ 100 :=
  ⟨chapter_progress_amended.2.1 [true] (by decide),
   chapter_progress_amended.1 [true] 10 (by decide)⟩

/-! ### C7: image-link extraction -/

lemma extract_not_mem_of_qualifies (s : String) (links : List String)
    (hq : qualifiesUrl s links = true) : s ∉ links := by
  intro hmem
  unfold qualifiesUrl at hq
  have hcc : links.contains s = true := by
    simpa using hmem
  rw [hcc] at hq
  simp at hq

lemma extractLinksAux_nodup (imgs : List ImgEl) :
    ∀ links : List String, links.Nodup → (extractLinksAux imgs links).Nodup := by
  induction imgs with
  | nil =>
    intro links h
    exact h
  | cons img rest ih =>
    intro links h
    simp only [extractLinksAux]
    cases hr : resolveSrc img with
    | none => exact ih links h
    | some s0 =>
      dsimp only
      by_cases hq : qualifiesUrl (cleanImageUrl s0) links = true
      · rw [if_pos hq]
        refine ih _ ?_
        have hnm := extract_not_mem_of_qualifies _ _ hq
        simp [List.nodup_append, h, hnm]
      · rw [if_neg hq]
        exact ih links h

lemma extractLinksAux_sublist (imgs : List ImgEl) :
    ∀ links : List String, ∃ t, extractLinksAux imgs links = links ++ t ∧
      t.Sublist (cleanedStream imgs) := by
  induction imgs with
  | nil =>
    intro links
    exact ⟨[], by simp [extractLinksAux], by simp [cleanedStream]⟩
  | cons img rest ih =>
    intro links
    simp only [extractLinksAux]
    cases hr : resolveSrc img with
    | none =>
      obtain ⟨t, ht, hs⟩ := ih links
      refine ⟨t, ht, ?_⟩
      have he : cleanedStream (img :: rest) = cleanedStream rest := by
        simp [cleanedStream, hr]
      rw [he]
      exact hs
    | some s0 =>
      have he : cleanedStream (img :: rest) = cleanImageUrl s0 :: cleanedStream rest := by
        simp [cleanedStream, hr]
      dsimp only
      by_cases hq : qualifiesUrl (cleanImageUrl s0) links = true
      · rw [if_pos hq]
        obtain ⟨t, ht, hs⟩ := ih (links ++ [cleanImageUrl s0])
        refine ⟨cleanImageUrl s0 :: t, by rw [ht]; simp, ?_⟩
        rw [he]
        exact hs.cons₂ _
      · rw [if_neg hq]
        obtain ⟨t, ht, hs⟩ := ih links
        refine ⟨t, ht, ?_⟩
        rw [he]
        exact hs.cons _

/-- C7: the extractor de-duplicates after query-stripping while
preserving page order — concretely `[a.jpg, b.jpg?x=1, a.jpg]` yields
exactly `[a.jpg, b.jpg]`; a page without qualifying images yields `[]`
(an ordinary value, not an error); in general the result has no
duplicates and is an order-preserving selection (sublist) of the
query-stripped candidate stream. -/
theorem extract_links_dedup_order :
    extractLinks [⟨some "https://x/a.jpg", none, none, none, none⟩,
        ⟨some "https://x/b.jpg?x=1", none, none, none, none⟩,
        ⟨some "https://x/a.jpg", none, none, none, none⟩] =
      ["https://x/a.jpg", "https://x/b.jpg"] ∧
    extractLinks ([] : List ImgEl) = [] ∧
    (∀ imgs : List ImgEl, (extractLinks imgs).Nodup) ∧
    (∀ imgs : List ImgEl, (extractLinks imgs).Sublist (cleanedStream imgs)) := by
  refine ⟨by decide, rfl, ?_, ?_⟩
  · intro imgs
    exact extractLinksAux_nodup imgs [] List.nodup_nil
  · intro imgs
    obtain ⟨t, ht, hs⟩ := extractLinksAux_sublist imgs []
    rw [extractLinks, ht]
    simpa using hs

/-- Witness for C7's universally quantified clauses at a one-element
page. -/
theorem extract_links_witness :
    (extractLinks [⟨some "https://x/a.jpg", none, none, none, none⟩]).Nodup :=
  extract_links_dedup_order.2.2.1 [⟨some "https://x/a.jpg", none, none, none, none⟩]

/-! ### C3: manifest-mode guard -/

/-- C3: with `use_session_manifest` and no usable manifest (missing
pointer, missing/unreadable manifest, or no listed document existing —
exactly the cases where `_load_manifest_list` yields nothing), the
operation emits a status and returns having written and moved nothing,
and its outcome is independent of the folder contents: it never falls
back to scanning the folder. -/
theorem merge_manifest_guard (listing listing2 : List String) (N : ℕ) (ig : Bool)
    (env : MergeEnv) (h : (loadManifestList env).1 = none) :
    (mergePdfs true listing N none true env ig).written = [] ∧
    (mergePdfs true listing N none true env ig).moved = [] ∧
    (mergePdfs true listing N none true env ig).statuses ≠ [] ∧
    mergePdfs true listing N none true env ig =
      mergePdfs true listing2 N none true env ig := by
  obtain ⟨sts, hsts⟩ : ∃ sts, loadManifestList env = (none, sts) :=
    ⟨(loadManifestList env).2, by rw [← h]⟩
  simp [mergePdfs, hsts]

/-- Witness for C3: missing pointer file, folder containing two
mergeable chapter documents — nothing is written or moved. -/
theorem merge_manifest_guard_witness :
    (mergePdfs true ["Chapter_004 - T.pdf", "Chapter_005 - T.pdf"] 2 none true
      ⟨none, fun _ => none, fun _ => false⟩ true).written = [] ∧
    (mergePdfs true ["Chapter_004 - T.pdf", "Chapter_005 - T.pdf"] 2 none true
      ⟨none, fun _ => none, fun _ => false⟩ true).moved = [] ∧
    (mergePdfs true ["Chapter_004 - T.pdf", "Chapter_005 - T.pdf"] 2 none true
      ⟨none, fun _ => none, fun _ => false⟩ true).statuses ≠ [] ∧
    mergePdfs true ["Chapter_004 - T.pdf", "Chapter_005 - T.pdf"] 2 none true
      ⟨none, fun _ => none, fun _ => false⟩ true =
      mergePdfs true [] 2 none true ⟨none, fun _ => none, fun _ => false⟩ true :=
  merge_manifest_guard ["Chapter_004 - T.pdf", "Chapter_005 - T.pdf"] [] 2 true
    ⟨none, fun _ => none, fun _ => false⟩ rfl

/-! ### C10: empty filtered selection falls back to the folder scan -/

lemma foldl_mergeChunk_shift (chunks : List (List String)) (w m s : List String) :
    chunks.foldl mergeChunk ⟨w, m, s⟩ =
      ⟨w ++ (chunks.foldl mergeChunk ⟨[], [], []⟩).written,
       m ++ (chunks.foldl mergeChunk ⟨[], [], []⟩).moved,
       s ++ (chunks.foldl mergeChunk ⟨[], [], []⟩).statuses⟩ := by
  induction chunks generalizing w m s with
  | nil => simp
  | cons c cs ih =>
    have hm : ∀ w m s : List String, mergeChunk ⟨w, m, s⟩ c =
        ⟨w ++ (chunkDelta c).1, m ++ (chunkDelta c).2.1, s ++ (chunkDelta c).2.2⟩ :=
      fun _ _ _ => rfl
    simp only [List.foldl_cons, hm, List.nil_append]
    rw [ih (w ++ (chunkDelta c).1) (m ++ (chunkDelta c).2.1) (s ++ (chunkDelta c).2.2),
      ih (chunkDelta c).1 (chunkDelta c).2.1 (chunkDelta c).2.2]
    simp [List.append_assoc]

lemma runChunks_effects (paths : List String) (N : ℕ) (sts sts2 : List String) :
    (runChunks paths N sts).written = (runChunks paths N sts2).written ∧
    (runChunks paths N sts).moved = (runChunks paths N sts2).moved := by
  unfold runChunks
  by_cases h : N = 0
  · simp [h]
  · rw [if_neg h, if_neg h]
    rw [foldl_mergeChunk_shift (chunkList N paths) [] [] sts,
      foldl_mergeChunk_shift (chunkList N paths) [] [] sts2]
    simp

lemma scanThen_effects (listing : List String) (N : ℕ) (ig : Bool) (sts sts2 : List String) :
    (scanThen listing N ig sts).written = (scanThen listing N ig sts2).written ∧
    (scanThen listing N ig sts).moved = (scanThen listing N ig sts2).moved := by
  unfold scanThen
  by_cases h : findAndSortChapterPdfs listing ig = []
  · simp [h]
  · rw [if_neg h, if_neg h]
    exact runChunks_effects _ _ _ _

/-- C10: a non-empty explicit selection whose every entry is filtered out
(already-merged under `ignore_merged`, not a `.pdf`, or without a
parsable bound) does not stop the merge: the files written and moved are
exactly those of a plain folder scan. -/
theorem selected_all_filtered_falls_back (listing : List String) (env : MergeEnv)
    (N : ℕ) (ig : Bool) (L : List String) (hL : L ≠ [])
    (hf : selectedFilter ig L = []) :
    (mergePdfs true listing N (some L) false env ig).written =
      (mergePdfs true listing N none false env ig).written ∧
    (mergePdfs true listing N (some L) false env ig).moved =
      (mergePdfs true listing N none false env ig).moved := by
  rcases L with _ | ⟨f, fs⟩
  · exact absurd rfl hL
  · have e1 : mergePdfs true listing N (some (f :: fs)) false env ig =
        scanThen listing N ig ["selected: 0"] := by
      simp [mergePdfs, hf]
    have e2 : mergePdfs true listing N none false env ig = scanThen listing N ig [] := by
      simp [mergePdfs]
    rw [e1, e2]
    exact scanThen_effects listing N ig _ _

/-- Witness for C10: the single selected file is in already-merged form
and filtered out, so the folder's two chapters are scanned and merged
exactly as without a selection. -/
theorem selected_fallback_witness :
    (mergePdfs true ["Chapter_001 - T.pdf", "Chapter_002 - T.pdf"] 2
        (some ["Chapter_001-005 - X.pdf"]) false
        ⟨none, fun _ => none, fun _ => false⟩ true).written =
      (mergePdfs true ["Chapter_001 - T.pdf", "Chapter_002 - T.pdf"] 2 none false
        ⟨none, fun _ => none, fun _ => false⟩ true).written ∧
    (mergePdfs true ["Chapter_001 - T.pdf", "Chapter_002 - T.pdf"] 2
        (some ["Chapter_001-005 - X.pdf"]) false
        ⟨none, fun _ => none, fun _ => false⟩ true).moved =
      (mergePdfs true ["Chapter_001 - T.pdf", "Chapter_002 - T.pdf"] 2 none false
        ⟨none, fun _ => none, fun _ => false⟩ true).moved :=
  selected_all_filtered_falls_back ["Chapter_001 - T.pdf", "Chapter_002 - T.pdf"]
    ⟨none, fun _ => none, fun _ => false⟩ 2 true ["Chapter_001-005 - X.pdf"]
    (by decide) (by decide)

/-! ### C1 and C9 groundwork: symbolic evaluation of the bound formatter -/

lemma digitChar_spec (n : ℕ) (h : n ≤ 9) :
    (Nat.digitChar n).isDigit = true ∧
    (Nat.digitChar n).toLower = Nat.digitChar n ∧
    charDigitVal (Nat.digitChar n) = n ∧
    Nat.digitChar n ≠ 'c' ∧
    Nat.digitChar n ≠ '_' ∧
    Nat.digitChar n ≠ '.' ∧
    Nat.digitChar n ≠ '-' ∧
    Nat.digitChar n ≠ '\n' ∧
    (Nat.digitChar n).isWhitespace = false := by
  interval_cases n <;> decide

lemma natCharsAux_zero (fuel : ℕ) : natCharsAux fuel 0 = [] := by
  cases fuel with
  | zero => rfl
  | succ k => simp [natCharsAux]

lemma natCharsAux_one_digit (fuel c : ℕ) (h1 : 1 ≤ c) (h9 : c ≤ 9) (hf : 1 ≤ fuel) :
    natCharsAux fuel c = [Nat.digitChar c] := by
  cases fuel with
  | zero => omega
  | succ k =>
    have e1 : c / 10 = 0 := by omega
    have e2 : c % 10 = c := by omega
    simp only [natCharsAux, if_neg (by omega : ¬ c = 0), e1, e2, natCharsAux_zero,
      List.nil_append]

lemma natCharsAux_two_digits (fuel b c : ℕ) (hb1 : 1 ≤ b) (hb : b ≤ 9) (hc : c ≤ 9)
    (hf : 2 ≤ fuel) :
    natCharsAux fuel (10 * b + c) = [Nat.digitChar b, Nat.digitChar c] := by
  cases fuel with
  | zero => omega
  | succ k =>
    have e1 : (10 * b + c) / 10 = b := by omega
    have e2 : (10 * b + c) % 10 = c := by omega
    simp only [natCharsAux, if_neg (by omega : ¬ 10 * b + c = 0), e1, e2,
      natCharsAux_one_digit k b hb1 hb (by omega)]
    rfl

lemma natCharsAux_three_digits (fuel a b c : ℕ) (ha1 : 1 ≤ a) (ha : a ≤ 9) (hb : b ≤ 9)
    (hc : c ≤ 9) (hf : 3 ≤ fuel) :
    natCharsAux fuel (100 * a + 10 * b + c) =
      [Nat.digitChar a, Nat.digitChar b, Nat.digitChar c] := by
  cases fuel with
  | zero => omega
  | succ k =>
    have e1 : (100 * a + 10 * b + c) / 10 = 10 * a + b := by omega
    have e2 : (100 * a + 10 * b + c) % 10 = c := by omega
    simp only [natCharsAux, if_neg (by omega : ¬ 100 * a + 10 * b + c = 0), e1, e2,
      natCharsAux_two_digits k a b ha1 ha hb (by omega)]
    rfl

lemma pad3Int_digits (a b c : ℕ) (ha : a ≤ 9) (hb : b ≤ 9) (hc : c ≤ 9) :
    pad3Int ((100 * a + 10 * b + c : ℕ) : ℤ) =
      [Nat.digitChar a, Nat.digitChar b, Nat.digitChar c] := by
  unfold pad3Int
  rw [if_neg (by omega : ¬ ((100 * a + 10 * b + c : ℕ) : ℤ) < 0), Int.toNat_ofNat]
  unfold natChars
  by_cases ha0 : a = 0
  · by_cases hb0 : b = 0
    · by_cases hc0 : c = 0
      · subst ha0; subst hb0; subst hc0
        decide
      · subst ha0; subst hb0
        rw [if_neg (by omega : ¬ 100 * 0 + 10 * 0 + c = 0),
          show 100 * 0 + 10 * 0 + c = c from by ring,
          natCharsAux_one_digit 30 c (by omega) hc (by omega)]
        rfl
    · subst ha0
      rw [if_neg (by omega : ¬ 100 * 0 + 10 * b + c = 0),
        show 100 * 0 + 10 * b + c = 10 * b + c from by ring,
        natCharsAux_two_digits 30 b c (by omega) hb hc (by omega)]
      rfl
  · rw [if_neg (by omega : ¬ 100 * a + 10 * b + c = 0),
      natCharsAux_three_digits 30 a b c (by omega) ha hb hc (by omega)]
    rfl

lemma formatBound_nat (k : ℕ) : formatBound (k : ℚ) = pad3Int (k : ℤ) := by
  unfold formatBound
  have h1 : qround ((k : ℚ)) = (k : ℤ) := by
    rw [qround_eq]
    exact_mod_cast round_natCast k
  rw [h1]
  have h2 : qabs ((k : ℚ) - ((k : ℤ) : ℚ)) = 0 := by
    rw [qabs_eq]
    simp
  rw [if_pos (by rw [h2]; norm_num)]

lemma fracDigitsAux_of_zero (fuel : ℕ) : fracDigitsAux fuel 0 = [] := by
  cases fuel with
  | zero => rfl
  | succ k => simp [fracDigitsAux]

lemma fracDigitsAux_tenth (fuel d : ℕ) (hd1 : 1 ≤ d) (hd9 : d ≤ 9) (hf : 1 ≤ fuel) :
    fracDigitsAux fuel ((d : ℚ) / 10) = [Nat.digitChar d] := by
  have hd0 : (0 : ℚ) < (d : ℚ) := by exact_mod_cast hd1
  cases fuel with
  | zero => omega
  | succ k =>
    have hne : ¬ ((d : ℚ) / 10) = 0 := ne_of_gt (by positivity)
    simp only [fracDigitsAux, if_neg hne]
    have hmul : (d : ℚ) / 10 * 10 = (d : ℚ) := by field_simp
    rw [hmul]
    have hfl : qfloor ((d : ℚ)) = (d : ℤ) := by
      rw [qfloor_eq]
      exact Int.floor_natCast d
    have hfr : qfract ((d : ℚ)) = 0 := by
      rw [qfract_eq]
      exact Int.fract_natCast d
    rw [hfl, Int.toNat_ofNat, hfr, fracDigitsAux_of_zero]

lemma formatBound_nat_frac (k d : ℕ) (hd1 : 1 ≤ d) (hd9 : d ≤ 9) :
    formatBound ((k : ℚ) + d / 10) = pad3Int (k : ℤ) ++ '_' :: [Nat.digitChar d] := by
  have hd0 : (0 : ℚ) < (d : ℚ) := by exact_mod_cast hd1
  have hfrac0 : (0 : ℚ) < (d : ℚ) / 10 := by positivity
  have hfrac1 : (d : ℚ) / 10 < 1 := by
    rw [div_lt_one (by norm_num)]
    exact_mod_cast (by omega : d < 10)
  unfold formatBound
  have key : ¬ qabs ((k : ℚ) + d / 10 - ((qround ((k : ℚ) + d / 10) : ℤ) : ℚ))
      < 1 / 1000000000 := by
    set z := qround ((k : ℚ) + d / 10) with hz
    rw [qabs_eq]
    intro habs
    rw [abs_lt] at habs
    have hcast : |((10 * (k : ℤ) + d - 10 * z : ℤ) : ℚ)| < 1 := by
      rw [abs_lt]
      push_cast
      constructor <;> nlinarith [habs.1, habs.2]
    have h1 : |(10 * (k : ℤ) + d - 10 * z : ℤ)| < 1 := by exact_mod_cast hcast
    have h0 : 10 * (k : ℤ) + d - 10 * z = 0 := Int.abs_lt_one_iff.mp h1
    omega
  rw [if_neg key]
  have htr : ratTrunc ((k : ℚ) + d / 10) = (k : ℤ) := by
    unfold ratTrunc
    rw [if_pos (by positivity : (0 : ℚ) ≤ (k : ℚ) + d / 10), qfloor_eq,
      show (k : ℚ) + (d : ℚ) / 10 = (d : ℚ) / 10 + (k : ℕ) from by push_cast; ring,
      Int.floor_add_nat,
      Int.floor_eq_zero_iff.mpr (Set.mem_Ico.mpr ⟨le_of_lt hfrac0, hfrac1⟩)]
    simp
  have hfd : fracDigits ((k : ℚ) + d / 10) = [Nat.digitChar d] := by
    unfold fracDigits
    have habs : qabs ((k : ℚ) + d / 10) = (k : ℚ) + d / 10 := by
      rw [qabs_eq]
      exact abs_of_nonneg (by positivity)
    rw [habs]
    have hfr : qfract ((k : ℚ) + d / 10) = (d : ℚ) / 10 := by
      rw [qfract_eq,
        show (k : ℚ) + (d : ℚ) / 10 = (d : ℚ) / 10 + (k : ℕ) from by push_cast; ring,
        Int.fract_add_nat,
        Int.fract_eq_self.mpr ⟨le_of_lt hfrac0, hfrac1⟩]
    rw [hfr]
    exact fracDigitsAux_tenth 30 d hd1 hd9 (by omega)
  rw [htr, hfd]


/-! ### C1 and C9 groundwork: symbolic evaluation of the matchers -/

lemma searchFirst_cons_of_nil {α : Type} (f : List Char → List (α × List Char)) (x : Char)
    (xs : List Char) (h : f (x :: xs) = []) :
    searchFirst f (x :: xs) = searchFirst f xs := by
  have e : searchFirst f (x :: xs) =
      match ((f (x :: xs)).head?).map (·.1) with
      | some a => some a
      | none => searchFirst f xs := rfl
  rw [e, h]
  rfl

lemma searchFirst_cons_of_head {α : Type} (f : List Char → List (α × List Char)) (x : Char)
    (xs : List Char) (a : α) (rest : List Char) (l : List (α × List Char))
    (h : f (x :: xs) = (a, rest) :: l) :
    searchFirst f (x :: xs) = some a := by
  have e : searchFirst f (x :: xs) =
      match ((f (x :: xs)).head?).map (·.1) with
      | some a => some a
      | none => searchFirst f xs := rfl
  rw [e, h]
  rfl

lemma searchFirst_at_nil {α : Type} (f : List Char → List (α × List Char)) (h : f [] = []) :
    searchFirst f [] = none := by
  unfold searchFirst
  rw [h]
  rfl

lemma searchFirst_isSome_of_ne {α : Type} (f : List Char → List (α × List Char)) (x : Char)
    (xs : List Char) (h : f (x :: xs) ≠ []) :
    (searchFirst f (x :: xs)).isSome = true := by
  unfold searchFirst
  cases he : f (x :: xs) with
  | nil => exact absurd he h
  | cons p l => simp

lemma dropLitCI_chapter (l : List Char) :
    dropLitCI chapterLit ('C' :: 'h' :: 'a' :: 'p' :: 't' :: 'e' :: 'r' :: '_' :: l) = some l :=
  rfl

lemma dropLitCI_chapter_ne (u : Char) (hu : u.toLower ≠ 'c') (l : List Char) :
    dropLitCI chapterLit (u :: l) = none := by
  simp [chapterLit, dropLitCI, hu]

lemma singleAt_ne (u : Char) (hu : u.toLower ≠ 'c') (l : List Char) :
    singleAt (u :: l) = [] := by
  simp [singleAt, dropLitCI_chapter_ne u hu l]

lemma rangeAt_ne (u : Char) (hu : u.toLower ≠ 'c') (l : List Char) :
    rangeAt (u :: l) = [] := by
  simp [rangeAt, dropLitCI_chapter_ne u hu l]

lemma searchFirst_range_suffix (l : List Char) (h : ∀ u ∈ l, u.toLower ≠ 'c') :
    searchFirst rangeAt l = none := by
  induction l with
  | nil => exact searchFirst_at_nil _ rfl
  | cons u us ih =>
    rw [searchFirst_cons_of_nil _ _ _ (rangeAt_ne u (h u (List.mem_cons_self u us)) us)]
    exact ih fun v hv => h v (List.mem_cons_of_mem u hv)

lemma dashThen_nil {α : Type} (f : List Char → List α) : dashThen f [] = [] := rfl

lemma dashThen_ne {α : Type} (f : List Char → List α) (u : Char) (hu : u ≠ '-')
    (l : List Char) : dashThen f (u :: l) = [] := by
  simp [dashThen, hu]

lemma dashThen_dash {α : Type} (f : List Char → List α) (l : List Char) :
    dashThen f ('-' :: l) = f l := by
  simp [dashThen]

lemma charThenDigits_nil (c0 : Char) : charThenDigits c0 [] = [] := rfl

lemma charThenDigits_ne (c0 u : Char) (hu : u ≠ c0) (l : List Char) :
    charThenDigits c0 (u :: l) = [] := by
  simp [charThenDigits, hu]

lemma digitsPlusOpts_one (w : Char) (rest : List Char) (hw : w.isDigit = true)
    (hr : rest.takeWhile (·.isDigit) = []) :
    digitsPlusOpts (w :: rest) = [([w], rest)] := by
  unfold digitsPlusOpts
  simp only [List.takeWhile_cons, hw, if_true, hr, List.length_cons, List.length_nil]
  rw [show List.range (0 + 1) = [0] from rfl]
  simp

lemma digitsPlusOpts_three (x y z : Char) (rest : List Char)
    (hx : x.isDigit = true) (hy : y.isDigit = true) (hz : z.isDigit = true)
    (hr : rest.takeWhile (·.isDigit) = []) :
    digitsPlusOpts (x :: y :: z :: rest) =
      [([x, y, z], rest), ([x, y], z :: rest), ([x], y :: z :: rest)] := by
  unfold digitsPlusOpts
  simp only [List.takeWhile_cons, hx, hy, hz, if_true, hr, List.length_cons, List.length_nil]
  rw [show List.range (0 + 1 + 1 + 1) = [0, 1, 2] from rfl]
  simp


lemma forall_head_cons {P : Char → Prop} (v : Char) (l : List Char) (hv : P v) :
    ∀ u ∈ (v :: l).head?, P u := by
  intro u hu
  simp only [List.head?_cons, Option.mem_def, Option.some.injEq] at hu
  rw [← hu]
  exact hv

lemma optUnderscoreDigits_no (rest : List Char) (h : ∀ u ∈ rest.head?, u ≠ '_') :
    optUnderscoreDigits rest = [([], rest)] := by
  cases rest with
  | nil => rfl
  | cons u l => simp [optUnderscoreDigits, charThenDigits_ne '_' u (h u rfl) l]

lemma optDotDigits_no (rest : List Char) (h : ∀ u ∈ rest.head?, u ≠ '.') :
    optDotDigits rest = [([], rest)] := by
  cases rest with
  | nil => rfl
  | cons u l => simp [optDotDigits, charThenDigits_ne '.' u (h u rfl) l]

lemma boundTokenOpts_plain (x y z : Char) (rest : List Char)
    (hx : x.isDigit = true) (hy : y.isDigit = true) (hz : z.isDigit = true)
    (hu : ∀ u ∈ rest.head?, u ≠ '_') :
    boundTokenOpts (x :: y :: z :: rest) = [([x, y, z], rest)] := by
  unfold boundTokenOpts
  simp [threeDigitsOpts, hx, hy, hz, optUnderscoreDigits_no rest hu]

lemma boundTokenOpts_frac (x y z w : Char) (rest : List Char)
    (hx : x.isDigit = true) (hy : y.isDigit = true) (hz : z.isDigit = true)
    (hw : w.isDigit = true) (hr : rest.takeWhile (·.isDigit) = []) :
    boundTokenOpts (x :: y :: z :: '_' :: w :: rest) =
      [([x, y, z, '_', w], rest), ([x, y, z], '_' :: w :: rest)] := by
  unfold boundTokenOpts
  simp [threeDigitsOpts, hx, hy, hz, optUnderscoreDigits, charThenDigits,
    digitsPlusOpts_one w rest hw hr]

lemma plainNumberOpts_plain (x y z : Char) (rest : List Char)
    (hx : x.isDigit = true) (hy : y.isDigit = true) (hz : z.isDigit = true)
    (hyd : y ≠ '.') (hzd : z ≠ '.')
    (hr : rest.takeWhile (·.isDigit) = []) (hd : ∀ u ∈ rest.head?, u ≠ '.') :
    plainNumberOpts (x :: y :: z :: rest) =
      [([x, y, z], rest), ([x, y], z :: rest), ([x], y :: z :: rest)] := by
  unfold plainNumberOpts
  rw [digitsPlusOpts_three x y z rest hx hy hz hr]
  simp [optDotDigits_no rest hd,
    optDotDigits_no (z :: rest) (forall_head_cons z rest hzd),
    optDotDigits_no (y :: z :: rest) (forall_head_cons y (z :: rest) hyd)]

lemma groupTokenOpts_plain (x y z : Char) (rest : List Char)
    (hx : x.isDigit = true) (hy : y.isDigit = true) (hz : z.isDigit = true)
    (hyd : y ≠ '.') (hzd : z ≠ '.')
    (hr : rest.takeWhile (·.isDigit) = []) (hd : ∀ u ∈ rest.head?, u ≠ '.')
    (hu : ∀ u ∈ rest.head?, u ≠ '_') :
    groupTokenOpts (x :: y :: z :: rest) =
      [([x, y, z], rest), ([x, y, z], rest), ([x, y], z :: rest), ([x], y :: z :: rest)] := by
  unfold groupTokenOpts
  rw [boundTokenOpts_plain x y z rest hx hy hz hu,
    plainNumberOpts_plain x y z rest hx hy hz hyd hzd hr hd]
  rfl

lemma groupTokenOpts_frac (x y z w : Char) (rest : List Char)
    (hx : x.isDigit = true) (hy : y.isDigit = true) (hz : z.isDigit = true)
    (hw : w.isDigit = true) (hyd : y ≠ '.') (hzd : z ≠ '.')
    (hr : rest.takeWhile (·.isDigit) = []) :
    groupTokenOpts (x :: y :: z :: '_' :: w :: rest) =
      [([x, y, z, '_', w], rest), ([x, y, z], '_' :: w :: rest),
       ([x, y, z], '_' :: w :: rest), ([x, y], z :: '_' :: w :: rest),
       ([x], y :: z :: '_' :: w :: rest)] := by
  unfold groupTokenOpts
  rw [boundTokenOpts_frac x y z w rest hx hy hz hw hr]
  have hplain : plainNumberOpts (x :: y :: z :: '_' :: w :: rest) =
      [([x, y, z], '_' :: w :: rest), ([x, y], z :: '_' :: w :: rest),
       ([x], y :: z :: '_' :: w :: rest)] := by
    unfold plainNumberOpts
    rw [digitsPlusOpts_three x y z ('_' :: w :: rest) hx hy hz (by simp [List.takeWhile_cons])]
    simp [optDotDigits_no ('_' :: w :: rest) (forall_head_cons '_' (w :: rest) (by decide)),
      optDotDigits_no (z :: '_' :: w :: rest) (forall_head_cons z ('_' :: w :: rest) hzd),
      optDotDigits_no (y :: z :: '_' :: w :: rest) (forall_head_cons y (z :: '_' :: w :: rest) hyd)]
  rw [hplain]
  rfl


lemma digitChar_toLower_ne_c (n : ℕ) (h : n ≤ 9) : (Nat.digitChar n).toLower ≠ 'c' := by
  interval_cases n <;> decide

lemma natOfChars_three (a b c : ℕ) (ha : a ≤ 9) (hb : b ≤ 9) (hc : c ≤ 9) :
    natOfChars [Nat.digitChar a, Nat.digitChar b, Nat.digitChar c] = 100 * a + 10 * b + c := by
  obtain ⟨-, -, hva, -, -, -, -, -, -⟩ := digitChar_spec a ha
  obtain ⟨-, -, hvb, -, -, -, -, -, -⟩ := digitChar_spec b hb
  obtain ⟨-, -, hvc, -, -, -, -, -, -⟩ := digitChar_spec c hc
  simp [natOfChars, hva, hvb, hvc]
  ring

lemma natOfChars_one (d : ℕ) (hd : d ≤ 9) : natOfChars [Nat.digitChar d] = d := by
  obtain ⟨-, -, hvd, -, -, -, -, -, -⟩ := digitChar_spec d hd
  simp [natOfChars, hvd]

lemma parseFloatChars_digits (l : List Char) (hne : l ≠ [])
    (hd : ∀ u ∈ l, u.isDigit = true) (hdot : ∀ u ∈ l, u ≠ '.') :
    parseFloatChars l = some ((natOfChars l : ℚ)) := by
  unfold parseFloatChars
  have ht : l.takeWhile (fun c => decide (c ≠ '.')) = l :=
    List.takeWhile_eq_self_iff.mpr (by intro u hu; simpa using hdot u hu)
  simp only [ht, List.drop_length]
  rw [if_pos ⟨hne, by rw [List.all_eq_true]; intro u hu; simpa using hd u hu⟩]

lemma takeWhile_append_stop (l1 l2 : List Char) (h1 : ∀ u ∈ l1, u ≠ '.') :
    (l1 ++ '.' :: l2).takeWhile (fun c => decide (c ≠ '.')) = l1 := by
  induction l1 with
  | nil => simp [List.takeWhile_cons]
  | cons u us ih =>
    have hu : u ≠ '.' := h1 u (List.mem_cons_self u us)
    simp only [List.cons_append, List.takeWhile_cons]
    rw [if_pos (by simpa using hu), ih fun v hv => h1 v (List.mem_cons_of_mem u hv)]

lemma parseFloatChars_digits_frac (l1 l2 : List Char)
    (h1d : ∀ u ∈ l1, u.isDigit = true) (h1dot : ∀ u ∈ l1, u ≠ '.')
    (h2d : ∀ u ∈ l2, u.isDigit = true) (hne : l1 ≠ []) :
    parseFloatChars (l1 ++ '.' :: l2) =
      some ((natOfChars l1 : ℚ) + (natOfChars l2 : ℚ) / 10 ^ l2.length) := by
  unfold parseFloatChars
  simp only [takeWhile_append_stop l1 l2 h1dot,
    show (l1 ++ '.' :: l2).drop l1.length = '.' :: l2 from by simp]
  rw [if_pos ⟨Or.inl hne,
    by rw [List.all_eq_true]; intro u hu; simpa using h1d u hu,
    by rw [List.all_eq_true]; intro u hu; simpa using h2d u hu⟩]

lemma tokenToFloat_digits3 (a b c : ℕ) (ha : a ≤ 9) (hb : b ≤ 9) (hc : c ≤ 9) :
    tokenToFloat [Nat.digitChar a, Nat.digitChar b, Nat.digitChar c] =
      ((100 * a + 10 * b + c : ℕ) : ℚ) := by
  obtain ⟨hda, -, -, -, hua, hdota, -, -, -⟩ := digitChar_spec a ha
  obtain ⟨hdb, -, -, -, hub, hdotb, -, -, -⟩ := digitChar_spec b hb
  obtain ⟨hdc, -, -, -, huc, hdotc, -, -, -⟩ := digitChar_spec c hc
  have hmap : List.map (fun ch => if ch = '_' then '.' else ch)
      [Nat.digitChar a, Nat.digitChar b, Nat.digitChar c] =
      [Nat.digitChar a, Nat.digitChar b, Nat.digitChar c] := by
    simp [hua, hub, huc]
  have hp : parseFloatChars [Nat.digitChar a, Nat.digitChar b, Nat.digitChar c] =
      some (((100 * a + 10 * b + c : ℕ) : ℚ)) := by
    rw [parseFloatChars_digits _ (by simp)
      (by intro u hu; simp at hu; rcases hu with rfl | rfl | rfl <;> assumption)
      (by intro u hu; simp at hu; rcases hu with rfl | rfl | rfl <;> assumption),
      natOfChars_three a b c ha hb hc]
  simp only [tokenToFloat, hmap, hp]

lemma tokenToFloat_digits3_frac (a b c d : ℕ) (ha : a ≤ 9) (hb : b ≤ 9) (hc : c ≤ 9)
    (hd : d ≤ 9) :
    tokenToFloat [Nat.digitChar a, Nat.digitChar b, Nat.digitChar c, '_', Nat.digitChar d] =
      ((100 * a + 10 * b + c : ℕ) : ℚ) + ((d : ℕ) : ℚ) / 10 := by
  obtain ⟨hda, -, -, -, hua, hdota, -, -, -⟩ := digitChar_spec a ha
  obtain ⟨hdb, -, -, -, hub, hdotb, -, -, -⟩ := digitChar_spec b hb
  obtain ⟨hdc, -, -, -, huc, hdotc, -, -, -⟩ := digitChar_spec c hc
  obtain ⟨hdd, -, -, -, hud, hdotd, -, -, -⟩ := digitChar_spec d hd
  have hmap : List.map (fun ch => if ch = '_' then '.' else ch)
      [Nat.digitChar a, Nat.digitChar b, Nat.digitChar c, '_', Nat.digitChar d] =
      [Nat.digitChar a, Nat.digitChar b, Nat.digitChar c] ++ '.' :: [Nat.digitChar d] := by
    simp [hua, hub, huc, hud]
  have hp : parseFloatChars
      ([Nat.digitChar a, Nat.digitChar b, Nat.digitChar c] ++ '.' :: [Nat.digitChar d]) =
      some (((100 * a + 10 * b + c : ℕ) : ℚ) + ((d : ℕ) : ℚ) / 10) := by
    rw [parseFloatChars_digits_frac [Nat.digitChar a, Nat.digitChar b, Nat.digitChar c]
      [Nat.digitChar d]
      (by intro u hu; simp at hu; rcases hu with rfl | rfl | rfl <;> assumption)
      (by intro u hu; simp at hu; rcases hu with rfl | rfl | rfl <;> assumption)
      (by intro u hu; simp at hu; subst hu; assumption)
      (by simp),
      natOfChars_three a b c ha hb hc, natOfChars_one d hd]
    norm_num
  simp only [tokenToFloat, hmap, hp]


lemma toList_mk (l : List Char) : (String.mk l).toList = l := rfl

lemma singleAt_digits (a b c : ℕ) (ha : a ≤ 9) (hb : b ≤ 9) (hc : c ≤ 9) :
    singleAt ('C' :: 'h' :: 'a' :: 'p' :: 't' :: 'e' :: 'r' :: '_' ::
        Nat.digitChar a :: Nat.digitChar b :: Nat.digitChar c :: []) =
      [([Nat.digitChar a, Nat.digitChar b, Nat.digitChar c], []),
       ([Nat.digitChar a, Nat.digitChar b, Nat.digitChar c], []),
       ([Nat.digitChar a, Nat.digitChar b], [Nat.digitChar c]),
       ([Nat.digitChar a], [Nat.digitChar b, Nat.digitChar c])] := by
  obtain ⟨hda, -, -, -, -, -, -, -, -⟩ := digitChar_spec a ha
  obtain ⟨hdb, -, -, -, -, hdotb, -, -, -⟩ := digitChar_spec b hb
  obtain ⟨hdc, -, -, -, -, hdotc, -, -, -⟩ := digitChar_spec c hc
  unfold singleAt
  rw [dropLitCI_chapter]
  exact groupTokenOpts_plain _ _ _ [] hda hdb hdc hdotb hdotc rfl (by simp) (by simp)

lemma singleAt_digits_frac (a b c d : ℕ) (ha : a ≤ 9) (hb : b ≤ 9) (hc : c ≤ 9)
    (hd : d ≤ 9) :
    singleAt ('C' :: 'h' :: 'a' :: 'p' :: 't' :: 'e' :: 'r' :: '_' ::
        Nat.digitChar a :: Nat.digitChar b :: Nat.digitChar c :: '_' :: Nat.digitChar d :: []) =
      [([Nat.digitChar a, Nat.digitChar b, Nat.digitChar c, '_', Nat.digitChar d], []),
       ([Nat.digitChar a, Nat.digitChar b, Nat.digitChar c], ['_', Nat.digitChar d]),
       ([Nat.digitChar a, Nat.digitChar b, Nat.digitChar c], ['_', Nat.digitChar d]),
       ([Nat.digitChar a, Nat.digitChar b], [Nat.digitChar c, '_', Nat.digitChar d]),
       ([Nat.digitChar a], [Nat.digitChar b, Nat.digitChar c, '_', Nat.digitChar d])] := by
  obtain ⟨hda, -, -, -, -, -, -, -, -⟩ := digitChar_spec a ha
  obtain ⟨hdb, -, -, -, -, hdotb, -, -, -⟩ := digitChar_spec b hb
  obtain ⟨hdc, -, -, -, -, hdotc, -, -, -⟩ := digitChar_spec c hc
  obtain ⟨hdd, -, -, -, -, -, -, -, -⟩ := digitChar_spec d hd
  unfold singleAt
  rw [dropLitCI_chapter]
  exact groupTokenOpts_frac _ _ _ _ [] hda hdb hdc hdd hdotb hdotc rfl

lemma rangeAt_digits (a b c : ℕ) (ha : a ≤ 9) (hb : b ≤ 9) (hc : c ≤ 9) :
    rangeAt ('C' :: 'h' :: 'a' :: 'p' :: 't' :: 'e' :: 'r' :: '_' ::
        Nat.digitChar a :: Nat.digitChar b :: Nat.digitChar c :: []) = [] := by
  obtain ⟨hda, -, -, -, -, -, -, -, -⟩ := digitChar_spec a ha
  obtain ⟨hdb, -, -, -, -, hdotb, hdashb, -, -⟩ := digitChar_spec b hb
  obtain ⟨hdc, -, -, -, -, hdotc, hdashc, -, -⟩ := digitChar_spec c hc
  have e : rangeAt ('C' :: 'h' :: 'a' :: 'p' :: 't' :: 'e' :: 'r' :: '_' ::
      Nat.digitChar a :: Nat.digitChar b :: Nat.digitChar c :: []) =
      (groupTokenOpts [Nat.digitChar a, Nat.digitChar b, Nat.digitChar c]).flatMap
        (fun p => dashThen (fun r2 =>
          (groupTokenOpts r2).map fun q => ((p.1, q.1), q.2)) p.2) := by
    unfold rangeAt
    rw [dropLitCI_chapter]
  rw [e, groupTokenOpts_plain _ _ _ [] hda hdb hdc hdotb hdotc rfl (by simp) (by simp)]
  simp [dashThen_nil, dashThen_ne _ _ hdashc, dashThen_ne _ _ hdashb]

lemma rangeAt_digits_frac (a b c d : ℕ) (ha : a ≤ 9) (hb : b ≤ 9) (hc : c ≤ 9)
    (hd : d ≤ 9) :
    rangeAt ('C' :: 'h' :: 'a' :: 'p' :: 't' :: 'e' :: 'r' :: '_' ::
        Nat.digitChar a :: Nat.digitChar b :: Nat.digitChar c :: '_' :: Nat.digitChar d :: []) =
      [] := by
  obtain ⟨hda, -, -, -, -, -, -, -, -⟩ := digitChar_spec a ha
  obtain ⟨hdb, -, -, -, -, hdotb, hdashb, -, -⟩ := digitChar_spec b hb
  obtain ⟨hdc, -, -, -, -, hdotc, hdashc, -, -⟩ := digitChar_spec c hc
  obtain ⟨hdd, -, -, -, -, -, -, -, -⟩ := digitChar_spec d hd
  have e : rangeAt ('C' :: 'h' :: 'a' :: 'p' :: 't' :: 'e' :: 'r' :: '_' ::
      Nat.digitChar a :: Nat.digitChar b :: Nat.digitChar c :: '_' :: Nat.digitChar d :: []) =
      (groupTokenOpts
          [Nat.digitChar a, Nat.digitChar b, Nat.digitChar c, '_', Nat.digitChar d]).flatMap
        (fun p => dashThen (fun r2 =>
          (groupTokenOpts r2).map fun q => ((p.1, q.1), q.2)) p.2) := by
    unfold rangeAt
    rw [dropLitCI_chapter]
  rw [e, groupTokenOpts_frac _ _ _ _ [] hda hdb hdc hdd hdotb hdotc rfl]
  simp [dashThen_nil, dashThen_ne _ _ hdashc, dashThen_ne _ _ hdashb,
    dashThen_ne _ ('_' : Char) (by decide)]

lemma parseBounds_digits (a b c : ℕ) (ha : a ≤ 9) (hb : b ≤ 9) (hc : c ≤ 9) :
    parseBoundsFromName (String.mk ('C' :: 'h' :: 'a' :: 'p' :: 't' :: 'e' :: 'r' :: '_' ::
        Nat.digitChar a :: Nat.digitChar b :: Nat.digitChar c :: [])) =
      some (((100 * a + 10 * b + c : ℕ) : ℚ), ((100 * a + 10 * b + c : ℕ) : ℚ)) := by
  have hrange : searchFirst rangeAt ('C' :: 'h' :: 'a' :: 'p' :: 't' :: 'e' :: 'r' :: '_' ::
      Nat.digitChar a :: Nat.digitChar b :: Nat.digitChar c :: []) = none := by
    rw [searchFirst_cons_of_nil _ _ _ (rangeAt_digits a b c ha hb hc)]
    apply searchFirst_range_suffix
    intro u hu
    simp at hu
    rcases hu with rfl | rfl | rfl | rfl | rfl | rfl | rfl | rfl | rfl | rfl
    · decide
    · decide
    · decide
    · decide
    · decide
    · decide
    · decide
    · exact digitChar_toLower_ne_c a ha
    · exact digitChar_toLower_ne_c b hb
    · exact digitChar_toLower_ne_c c hc
  have hsingle : searchFirst singleAt ('C' :: 'h' :: 'a' :: 'p' :: 't' :: 'e' :: 'r' :: '_' ::
      Nat.digitChar a :: Nat.digitChar b :: Nat.digitChar c :: []) =
      some [Nat.digitChar a, Nat.digitChar b, Nat.digitChar c] :=
    searchFirst_cons_of_head _ _ _ _ _ _ (singleAt_digits a b c ha hb hc)
  simp only [parseBoundsFromName, toList_mk, hrange, hsingle,
    tokenToFloat_digits3 a b c ha hb hc]

lemma parseBounds_digits_frac (a b c d : ℕ) (ha : a ≤ 9) (hb : b ≤ 9) (hc : c ≤ 9)
    (hd : d ≤ 9) :
    parseBoundsFromName (String.mk ('C' :: 'h' :: 'a' :: 'p' :: 't' :: 'e' :: 'r' :: '_' ::
        Nat.digitChar a :: Nat.digitChar b :: Nat.digitChar c :: '_' :: Nat.digitChar d :: [])) =
      some (((100 * a + 10 * b + c : ℕ) : ℚ) + ((d : ℕ) : ℚ) / 10,
        ((100 * a + 10 * b + c : ℕ) : ℚ) + ((d : ℕ) : ℚ) / 10) := by
  have hrange : searchFirst rangeAt ('C' :: 'h' :: 'a' :: 'p' :: 't' :: 'e' :: 'r' :: '_' ::
      Nat.digitChar a :: Nat.digitChar b :: Nat.digitChar c :: '_' :: Nat.digitChar d :: []) =
      none := by
    rw [searchFirst_cons_of_nil _ _ _ (rangeAt_digits_frac a b c d ha hb hc hd)]
    apply searchFirst_range_suffix
    intro u hu
    simp at hu
    rcases hu with rfl | rfl | rfl | rfl | rfl | rfl | rfl | rfl | rfl | rfl | rfl | rfl
    · decide
    · decide
    · decide
    · decide
    · decide
    · decide
    · decide
    · exact digitChar_toLower_ne_c a ha
    · exact digitChar_toLower_ne_c b hb
    · exact digitChar_toLower_ne_c c hc
    · decide
    · exact digitChar_toLower_ne_c d hd
  have hsingle : searchFirst singleAt ('C' :: 'h' :: 'a' :: 'p' :: 't' :: 'e' :: 'r' :: '_' ::
      Nat.digitChar a :: Nat.digitChar b :: Nat.digitChar c :: '_' :: Nat.digitChar d :: []) =
      some [Nat.digitChar a, Nat.digitChar b, Nat.digitChar c, '_', Nat.digitChar d] :=
    searchFirst_cons_of_head _ _ _ _ _ _ (singleAt_digits_frac a b c d ha hb hc hd)
  simp only [parseBoundsFromName, toList_mk, hrange, hsingle,
    tokenToFloat_digits3_frac a b c d ha hb hc hd]


/-- C1 amended: the format/parse round-trip holds for every chapter
number below 1000 — non-negative integers and one-decimal values with
integer part at most 999 (the counterexample at 1000 forces exactly this
bound: four-digit tokens are truncated by the `\d{3}` alternative). -/
theorem roundtrip_below_1000 (k d : ℕ) (hk : k ≤ 999) (hd : d ≤ 9) :
    parseBoundsFromName (String.mk ("Chapter_".toList ++ formatBound ((k : ℚ) + d / 10))) =
      some ((k : ℚ) + d / 10, (k : ℚ) + d / 10) := by
  obtain ⟨a, b, c, ha, hb, hc, hk2⟩ :
      ∃ a b c, a ≤ 9 ∧ b ≤ 9 ∧ c ≤ 9 ∧ k = 100 * a + 10 * b + c :=
    ⟨k / 100, k / 10 % 10, k % 10, by omega, by omega, by omega, by omega⟩
  subst hk2
  by_cases hd0 : d = 0
  · subst hd0
    rw [show ((100 * a + 10 * b + c : ℕ) : ℚ) + ((0 : ℕ) : ℚ) / 10 =
        ((100 * a + 10 * b + c : ℕ) : ℚ) from by norm_num]
    rw [formatBound_nat, pad3Int_digits a b c ha hb hc]
    exact parseBounds_digits a b c ha hb hc
  · rw [formatBound_nat_frac (100 * a + 10 * b + c) d (by omega) hd,
      pad3Int_digits a b c ha hb hc]
    exact parseBounds_digits_frac a b c d ha hb hc hd

/-- Witness for C1's amended round-trip at 12.5. -/
theorem roundtrip_below_1000_witness :
    parseBoundsFromName (String.mk ("Chapter_".toList ++
        formatBound (((12 : ℕ) : ℚ) + ((5 : ℕ) : ℚ) / 10))) =
      some (((12 : ℕ) : ℚ) + ((5 : ℕ) : ℚ) / 10, ((12 : ℕ) : ℚ) + ((5 : ℕ) : ℚ) / 10) :=
  roundtrip_below_1000 12 5 (by norm_num) (by norm_num)


/-! ### C9: merged outputs and rescanning -/

lemma insertByStart_mem (x y : ℚ × String) (l : List (ℚ × String)) :
    y ∈ insertByStart x l ↔ y = x ∨ y ∈ l := by
  induction l with
  | nil => simp [insertByStart]
  | cons z zs ih =>
    unfold insertByStart
    by_cases h : x.1 ≤ z.1
    · rw [if_pos h]
      simp [List.mem_cons]
    · rw [if_neg h]
      simp only [List.mem_cons, ih]
      tauto

lemma sortByStart_mem (y : ℚ × String) (l : List (ℚ × String)) :
    y ∈ sortByStart l ↔ y ∈ l := by
  induction l with
  | nil => simp [sortByStart]
  | cons z zs ih =>
    have e : sortByStart (z :: zs) = insertByStart z (sortByStart zs) := rfl
    rw [e, insertByStart_mem]
    simp [ih]

lemma already_merged_not_scanned (name : String) (h : isAlreadyMerged name = true)
    (files : List String) :
    name ∉ (findAndSortChapterPdfs files true).map Prod.snd := by
  intro hmem
  rw [List.mem_map] at hmem
  obtain ⟨p, hp, hpn⟩ := hmem
  unfold findAndSortChapterPdfs at hp
  rw [sortByStart_mem, List.mem_filterMap] at hp
  obtain ⟨f, hf, hsome⟩ := hp
  by_cases h1 : endsWithPdf f = false
  · rw [if_pos h1] at hsome
    exact absurd hsome (by simp)
  · rw [if_neg h1] at hsome
    by_cases h2 : isAlreadyMerged f = true
    · rw [if_pos (by simp [h2] : (true && isAlreadyMerged f) = true)] at hsome
      exact absurd hsome (by simp)
    · rw [if_neg (by simp [h2] : ¬ (true && isAlreadyMerged f) = true)] at hsome
      rw [Option.map_eq_some'] at hsome
      obtain ⟨b, -, hb⟩ := hsome
      rw [← hb] at hpn
      simp at hpn
      rw [← hpn] at h
      exact absurd h h2

lemma mem_boundTokenOpts_fmt (k d : ℕ) (hk : k ≤ 999) (hd : d ≤ 9) (R : List Char)
    (hR : R.takeWhile (·.isDigit) = []) (hRu : ∀ u ∈ R.head?, u ≠ '_') :
    ∃ tok, (tok, R) ∈ boundTokenOpts (formatBound ((k : ℚ) + d / 10) ++ R) := by
  obtain ⟨a, b, c, ha, hb, hc, hk2⟩ :
      ∃ a b c, a ≤ 9 ∧ b ≤ 9 ∧ c ≤ 9 ∧ k = 100 * a + 10 * b + c :=
    ⟨k / 100, k / 10 % 10, k % 10, by omega, by omega, by omega, by omega⟩
  subst hk2
  obtain ⟨hda, -, -, -, -, -, -, -, -⟩ := digitChar_spec a ha
  obtain ⟨hdb, -, -, -, -, -, -, -, -⟩ := digitChar_spec b hb
  obtain ⟨hdc, -, -, -, -, -, -, -, -⟩ := digitChar_spec c hc
  by_cases hd0 : d = 0
  · subst hd0
    rw [show ((100 * a + 10 * b + c : ℕ) : ℚ) + ((0 : ℕ) : ℚ) / 10 =
        ((100 * a + 10 * b + c : ℕ) : ℚ) from by norm_num,
      formatBound_nat, pad3Int_digits a b c ha hb hc]
    refine ⟨[Nat.digitChar a, Nat.digitChar b, Nat.digitChar c], ?_⟩
    rw [show [Nat.digitChar a, Nat.digitChar b, Nat.digitChar c] ++ R =
        Nat.digitChar a :: Nat.digitChar b :: Nat.digitChar c :: R from rfl,
      boundTokenOpts_plain _ _ _ R hda hdb hdc hRu]
    exact List.mem_singleton.mpr rfl
  · obtain ⟨hdd, -, -, -, -, -, -, -, -⟩ := digitChar_spec d hd
    rw [formatBound_nat_frac (100 * a + 10 * b + c) d (by omega) hd,
      pad3Int_digits a b c ha hb hc]
    refine ⟨[Nat.digitChar a, Nat.digitChar b, Nat.digitChar c, '_', Nat.digitChar d], ?_⟩
    rw [show ([Nat.digitChar a, Nat.digitChar b, Nat.digitChar c] ++
          '_' :: [Nat.digitChar d]) ++ R =
        Nat.digitChar a :: Nat.digitChar b :: Nat.digitChar c :: '_' ::
          Nat.digitChar d :: R from by simp,
      boundTokenOpts_frac _ _ _ _ R hda hdb hdc hdd hR]
    exact List.mem_cons_self _ _

lemma mem_spacesStarOpts_one (t : List Char) : ([' '], t) ∈ spacesStarOpts (' ' :: t) := by
  have hlen : ((' ' :: t).takeWhile (·.isWhitespace)).length =
      (t.takeWhile (·.isWhitespace)).length + 1 := by
    simp [List.takeWhile_cons]
  show ([' '], t) ∈ (List.range (((' ' :: t).takeWhile (·.isWhitespace)).length + 1)).map
    (fun j => ((' ' :: t).take ((((' ' :: t).takeWhile (·.isWhitespace)).length) - j),
      (' ' :: t).drop ((((' ' :: t).takeWhile (·.isWhitespace)).length) - j)))
  rw [hlen]
  refine List.mem_map.mpr ⟨(t.takeWhile (·.isWhitespace)).length,
    List.mem_range.mpr (by omega), ?_⟩
  rw [show (t.takeWhile (·.isWhitespace)).length + 1 - (t.takeWhile (·.isWhitespace)).length
      = 1 from by omega]
  simp

lemma mem_dotPlusOpts_split (t r : List Char) (htne : t ≠ [])
    (ht : ∀ u ∈ t, u ≠ '\n') (hr : ∀ u ∈ r, u ≠ '\n') :
    (t, r) ∈ dotPlusOpts (t ++ r) := by
  have hrun : (t ++ r).takeWhile (fun c => decide (c ≠ '\n')) = t ++ r :=
    List.takeWhile_eq_self_iff.mpr (by
      intro u hu
      rcases List.mem_append.mp hu with hcase | hcase
      · simpa using ht u hcase
      · simpa using hr u hcase)
  show (t, r) ∈ (List.range (((t ++ r).takeWhile (fun c => decide (c ≠ '\n'))).length)).map
    (fun j => ((t ++ r).take ((((t ++ r).takeWhile (fun c => decide (c ≠ '\n'))).length) - j),
      (t ++ r).drop ((((t ++ r).takeWhile (fun c => decide (c ≠ '\n'))).length) - j)))
  rw [hrun]
  refine List.mem_map.mpr ⟨r.length, List.mem_range.mpr ?_, ?_⟩
  · rw [List.length_append]
    have : 1 ≤ t.length := List.length_pos.mpr htne
    omega
  · rw [List.length_append,
      show t.length + r.length - r.length = t.length from by omega,
      List.take_left, List.drop_left]

lemma mergedAt_chapter (R : List Char) :
    mergedAt ('C' :: 'h' :: 'a' :: 'p' :: 't' :: 'e' :: 'r' :: '_' :: R) =
      (boundTokenOpts R).flatMap (fun p =>
        dashThen (fun r2 =>
          (boundTokenOpts r2).flatMap fun q =>
            (spacesStarOpts q.2).flatMap fun u =>
              dashThen (fun r4 =>
                (spacesStarOpts r4).flatMap fun v =>
                  (dotPlusOpts v.2).flatMap fun w =>
                    match dropLitCI pdfLit w.2 with
                    | some rest => if rest = [] ∨ rest = ['\n'] then [((), rest)] else []
                    | none => []) u.2) p.2) := by
  unfold mergedAt
  rw [dropLitCI_chapter]

lemma isAlreadyMerged_outName (k1 d1 k2 d2 : ℕ) (hk1 : k1 ≤ 999) (hd1 : d1 ≤ 9)
    (hk2 : k2 ≤ 999) (hd2 : d2 ≤ 9) (title : String) (ht : title.toList ≠ [])
    (hnl : ∀ u ∈ title.toList, u ≠ '\n') :
    isAlreadyMerged (outName ((k1 : ℚ) + d1 / 10) ((k2 : ℚ) + d2 / 10) title) = true := by
  unfold isAlreadyMerged outName
  rw [toList_mk]
  have hshape : "Chapter_".toList ++ formatBound ((k1 : ℚ) + d1 / 10) ++
      '-' :: formatBound ((k2 : ℚ) + d2 / 10) ++ " - ".toList ++ title.toList
        ++ ".pdf".toList =
      'C' :: 'h' :: 'a' :: 'p' :: 't' :: 'e' :: 'r' :: '_' ::
        (formatBound ((k1 : ℚ) + d1 / 10) ++ '-' ::
          (formatBound ((k2 : ℚ) + d2 / 10) ++ ' ' :: '-' :: ' ' ::
            (title.toList ++ pdfLit))) := by
    rw [show "Chapter_".toList = ['C', 'h', 'a', 'p', 't', 'e', 'r', '_'] from rfl,
      show " - ".toList = [' ', '-', ' '] from rfl,
      show ".pdf".toList = pdfLit from rfl]
    simp [List.append_assoc]
  rw [hshape]
  apply searchFirst_isSome_of_ne
  refine List.ne_nil_of_mem (a := ((), ([] : List Char))) ?_
  rw [mergedAt_chapter]
  obtain ⟨tok1, hm1⟩ := mem_boundTokenOpts_fmt k1 d1 hk1 hd1
    ('-' :: (formatBound ((k2 : ℚ) + d2 / 10) ++ ' ' :: '-' :: ' ' ::
      (title.toList ++ pdfLit)))
    (by simp [List.takeWhile_cons]) (forall_head_cons _ _ (by decide))
  refine List.mem_flatMap.mpr ⟨(tok1, _), hm1, ?_⟩
  dsimp only
  rw [dashThen_dash]
  obtain ⟨tok2, hm2⟩ := mem_boundTokenOpts_fmt k2 d2 hk2 hd2
    (' ' :: '-' :: ' ' :: (title.toList ++ pdfLit))
    (by simp [List.takeWhile_cons]) (forall_head_cons _ _ (by decide))
  refine List.mem_flatMap.mpr ⟨(tok2, _), hm2, ?_⟩
  dsimp only
  refine List.mem_flatMap.mpr ⟨([' '], '-' :: ' ' :: (title.toList ++ pdfLit)),
    mem_spacesStarOpts_one _, ?_⟩
  dsimp only
  rw [dashThen_dash]
  refine List.mem_flatMap.mpr ⟨([' '], title.toList ++ pdfLit),
    mem_spacesStarOpts_one _, ?_⟩
  dsimp only
  refine List.mem_flatMap.mpr ⟨(title.toList, pdfLit),
    mem_dotPlusOpts_split _ _ ht hnl (by decide), ?_⟩
  dsimp only
  rw [show dropLitCI pdfLit pdfLit = some [] from rfl]
  simp

/-- C9 counterexample: merging `Chapter_999 - T.pdf` with the range file
`Chapter_1000-1001 - T.pdf` (whose bounds parse as 1000 and 100) writes
`Chapter_100-1000 - T.pdf`; the four-digit token does not fit the
already-merged pattern `\d{3}(?:_\d+)?`, so a subsequent folder scan with
`ignore_merged=True` picks the output up again. -/
theorem merged_output_rescan_counterexample :
    (mergePdfs true ["Chapter_999 - T.pdf", "Chapter_1000-1001 - T.pdf"] 2 none false
      ⟨none, fun _ => none, fun _ => false⟩ true).written =
        ["Chapter_100-1000 - T.pdf"] ∧
    isAlreadyMerged "Chapter_100-1000 - T.pdf" = false ∧
    "Chapter_100-1000 - T.pdf" ∈
      (findAndSortChapterPdfs ["Chapter_100-1000 - T.pdf"] true).map Prod.snd := by
  refine ⟨by decide, by decide, by decide⟩

/-- C9 amended: every merged output whose chunk bounds are non-negative
integers or one-decimal values below 1000 and whose derived title is
non-empty (and newline-free) has a name matching the already-merged
pattern, and a subsequent folder scan with `ignore_merged=True` always
excludes it. -/
theorem merged_output_excluded_below_1000 (k1 d1 k2 d2 : ℕ) (hk1 : k1 ≤ 999)
    (hd1 : d1 ≤ 9) (hk2 : k2 ≤ 999) (hd2 : d2 ≤ 9) (title : String)
    (ht : title.toList ≠ []) (hnl : ∀ u ∈ title.toList, u ≠ '\n') :
    isAlreadyMerged (outName ((k1 : ℚ) + d1 / 10) ((k2 : ℚ) + d2 / 10) title) = true ∧
    ∀ files : List String,
      outName ((k1 : ℚ) + d1 / 10) ((k2 : ℚ) + d2 / 10) title ∉
        (findAndSortChapterPdfs files true).map Prod.snd := by
  have hm := isAlreadyMerged_outName k1 d1 k2 d2 hk1 hd1 hk2 hd2 title ht hnl
  exact ⟨hm, fun files => already_merged_not_scanned _ hm files⟩

/-- Witness for C9's amended theorem at bounds 1 and 2.5 with title `T`. -/
theorem merged_output_excluded_witness :
    isAlreadyMerged (outName (((1 : ℕ) : ℚ) + ((0 : ℕ) : ℚ) / 10)
      (((2 : ℕ) : ℚ) + ((5 : ℕ) : ℚ) / 10) "T") = true ∧
    outName (((1 : ℕ) : ℚ) + ((0 : ℕ) : ℚ) / 10)
      (((2 : ℕ) : ℚ) + ((5 : ℕ) : ℚ) / 10) "T" ∉
      (findAndSortChapterPdfs ["Chapter_003 - T.pdf"] true).map Prod.snd :=
  ⟨(merged_output_excluded_below_1000 1 0 2 5 (by norm_num) (by norm_num) (by norm_num)
      (by norm_num) "T" (by decide) (by decide)).1,
   (merged_output_excluded_below_1000 1 0 2 5 (by norm_num) (by norm_num) (by norm_num)
      (by norm_num) "T" (by decide) (by decide)).2 ["Chapter_003 - T.pdf"]⟩


end MPD
